import Mathlib

/-!
The package lazyview: view resolution and the render pipeline.

A shallow embedding of `lazyview.go` (package `lazyview`): the template
resolver `Views.findTemplate`, the layout resolver `Views.findLayout`, the
engine dispatch `Views.RenderTemplate` and the pipeline `Views.Render`,
followed by the properties proved about them.

Go strings are Lean strings.  The standard-library functions the package
calls (`path.Join`, `filepath.Ext`, `strings.Split`, ...) are given as
executable definitions over the characters of a string; the virtual
filesystem, the MIME database, the verb `%q` and the engines are values
supplied by the caller, exactly as `fs.FS`, `mime.ExtensionsByType`,
`strconv.Quote` and the `Engine` interface are in the source.
-/

set_option autoImplicit false

namespace lazyview

/-! ## Standard-library string functions -/

/-- Go `strings.Split(s, sep)` for a one-character separator, on characters. -/
def splitChars (sep : Char) : List Char → List (List Char)
  | [] => [[]]
  | c :: cs =>
    if c = sep then [] :: splitChars sep cs
    else
      match splitChars sep cs with
      | [] => [[c]]
      | w :: ws => (c :: w) :: ws

/-- Go `strings.Split(s, sep)` for a one-character separator. -/
def stringsSplit (s : String) (sep : Char) : List String :=
  (splitChars sep s.data).map String.mk

/-- Go `unicode.IsSpace`: the characters `strings.TrimSpace` removes. -/
def isSpace (c : Char) : Bool :=
  c = '\t' || c = '\n' || c.toNat = 11 || c.toNat = 12 || c = '\r' || c = ' ' ||
  c.toNat = 0x85 || c.toNat = 0xA0 || c.toNat = 0x1680 ||
  (0x2000 ≤ c.toNat && c.toNat ≤ 0x200a) ||
  c.toNat = 0x2028 || c.toNat = 0x2029 || c.toNat = 0x202f ||
  c.toNat = 0x205f || c.toNat = 0x3000

/-- Go `strings.TrimSpace`. -/
def stringsTrimSpace (s : String) : String :=
  String.mk ((s.data.dropWhile isSpace).reverse.dropWhile isSpace).reverse

/-- Go `strings.TrimPrefix(s, ".")`. -/
def trimDot (s : String) : String :=
  match s.data with
  | '.' :: rest => String.mk rest
  | _ => s

/-- Go `strings.Join(elems, sep)`. -/
def stringsJoin (elems : List String) (sep : String) : String :=
  match elems with
  | [] => ""
  | e :: rest => rest.foldl (fun acc x => acc ++ sep ++ x) e

/-- The scan of Go `filepath.Ext` from the end of the path: `rev` is the part
of the path not yet visited, last character first, and `acc` the characters
already visited, in path order. -/
def extScan : List Char → List Char → List Char
  | [], _ => []
  | c :: rev, acc =>
    if c = '/' then []
    else if c = '.' then c :: acc
    else extScan rev (c :: acc)

/-- Go `filepath.Ext` (with `/` the path separator): the suffix of the last
path element starting at its final dot, or the empty string. -/
def filepathExt (path : String) : String :=
  String.mk (extScan path.data.reverse [])

/-- One step of Go `path.Clean` on a path element: elements already kept
(last first), the number of leading `..` elements that cannot be removed, and
whether the path is rooted. -/
def cleanStep (rooted : Bool) (st : List String × Nat) (elem : String) : List String × Nat :=
  if elem = "" ∨ elem = "." then st
  else if elem = ".." then
    if st.2 < st.1.length then (st.1.tail, st.2)
    else if rooted then st
    else (".." :: st.1, st.2 + 1)
  else (elem :: st.1, st.2)

/-- Go `path.Clean`: the shortest equivalent path. -/
def pathClean (path : String) : String :=
  if path = "" then "."
  else
    let rooted := path.data.head? = some '/'
    let kept := ((stringsSplit path '/').foldl (cleanStep rooted) ([], 0)).1.reverse
    if rooted then "/" ++ stringsJoin kept "/"
    else if kept = [] then "."
    else stringsJoin kept "/"

/-- Go `path.Join`: the non-empty elements joined by `/` and cleaned; the
empty string when every element is empty. -/
def pathJoin (elems : List String) : String :=
  match elems.filter (fun e => e ≠ "") with
  | [] => ""
  | kept => pathClean (stringsJoin kept "/")

/-! ## Data model -/

/-- A Go `error`, identified with its message. -/
abbrev Error := String

deriving instance DecidableEq for Except

/-- An `io.Writer`, identified with the bytes it has received so far. -/
abbrev Writer := String

/-- A `context.Context`; the package only passes it through. -/
abbrev Context := Nat

/-- A value of Go type `any` held in a variable binding. -/
inductive Value where
  | str (s : String)
  | int (n : Int)
  | null
  deriving DecidableEq, Repr

/-- Go `map[string]any`: variable bindings. -/
abbrev Vars := List (String × Value)

/-- An open file of the virtual filesystem: what reading it to the end gives. -/
structure File where
  ReadAll : Except Error String

/-- The `fs.FS` of a `Views`: pattern enumeration (`fs.Glob`) and `Open`. -/
structure FS where
  Glob : String → Except Error (List String)
  Open : String → Except Error File

/-- An engine registered in `Views.Engines` is named by a number; what its
`Render` method does is given by an `EngineRender`. -/
abbrev EngineId := Nat

/-- The Go struct `Views`. -/
structure Views where
  FS : FS
  Engines : String → Option EngineId
  Helpers : Vars
  SearchPaths : List String

/-- The Go struct `Options`. -/
structure Options where
  Ctx : Context
  Writer : Writer
  Variables : Vars
  Content : String
  Action : String
  Partial : String
  Controller : String
  Namespace : String
  Variants : List String
  Formats : List String
  Accept : String
  UseLayout : Bool
  Layout : String

/-- Go `mime.ExtensionsByType`, a table of the host system. -/
abbrev MimeDB := String → Except Error (List String)

/-- What a call of `Engine.Render` leaves behind: the state of the engines,
the writer it was handed (`none` is the nil writer) after the call, and the
returned error. -/
structure Rendered (σ : Type) where
  state : σ
  w : Option Writer
  err : Option Error

/-- The method `Engine.Render(ctx, views, w, vars, file)` of every registered
engine, with the mutable state `σ` of the engines passed explicitly. -/
abbrev EngineRender (σ : Type) :=
  EngineId → σ → Context → Views → Option Writer → Vars → String → Rendered σ

/-- The mutable state around a call of `Render`: the state of the engines
and the buffers held by `bufferPool`. -/
structure World (σ : Type) where
  engines : σ
  pool : List String

/-- What a call of `Views.Render` leaves behind. -/
structure RenderOutcome (σ : Type) where
  world : World σ
  target : Writer
  err : Option Error

/-! ## Loops with early return -/

/-- The state of a resolver loop after one iteration: the enclosing function
has returned `r`, or the loop goes on with the patterns tried so far. -/
inductive Loop (β : Type) where
  | ret (r : β)
  | next (tries : List String)

/-- Go `for _, x := range xs` whose body may return from the function. -/
def rangeLoop {α β : Type} (body : α → List String → Loop β) :
    List α → List String → Loop β
  | [], tries => .next tries
  | x :: rest, tries =>
    match body x tries with
    | .ret r => .ret r
    | .next tries1 => rangeLoop body rest tries1

/-! ## Resolution -/

/-- The loop over `files` in both resolvers: the first file whose extension
is a key of `Engines`. -/
def firstRegistered (v : Views) : List String → Option String
  | [] => none
  | file :: rest =>
    match v.Engines (trimDot (filepathExt file)) with
    | none => firstRegistered v rest
    | some _ => some file

/-- The function `getExtensionsForMIMETypes`. -/
def getExtensionsForMIMETypes (mime : MimeDB) (acceptHeader : String) : List String :=
  (stringsSplit acceptHeader ',').foldl
    (fun extensions mimeType =>
      let mimeType := (stringsSplit mimeType ';').headD ""
      match mime (stringsTrimSpace mimeType) with
      | .error _ => extensions
      | .ok exts => extensions ++ exts.map trimDot)
    []

/-- The method `Views.findTemplate`: the resolved file and its format. -/
def findTemplate (mime : MimeDB) (v : Views) (opts : Options) : Except Error (String × String) :=
  let formats :=
    if opts.Formats.length = 0 then
      if opts.Accept.length = 0 ∨ opts.Accept = "*/*" then ["html", "json"]
      else getExtensionsForMIMETypes mime opts.Accept
    else opts.Formats
  if opts.Action = "" ∧ opts.Partial = "" then
    .error "lazyview: no action or partial defined"
  else
    let name := if opts.Action = "" then "_" ++ opts.Partial else opts.Action
    let variants := if opts.Variants.length = 0 then [""] else opts.Variants
    let sp := if v.SearchPaths.length = 0 then [""] else v.SearchPaths
    match
      rangeLoop (fun format =>
        rangeLoop (fun dir tries =>
          if dir = "" then .next tries
          else
            rangeLoop (fun variant =>
              rangeLoop (fun spath tries =>
                let filename := name
                let filename := if format ≠ "" then filename ++ "." ++ format else filename
                let filename := if variant ≠ "" then filename ++ "+" ++ variant else filename
                let pattern := pathJoin [spath, dir, filename ++ ".*"]
                let tries := tries ++ [pattern]
                match v.FS.Glob pattern with
                | .error err => .ret (.error err)
                | .ok files =>
                  match firstRegistered v files with
                  | some file => .ret (.ok (file, format))
                  | none => .next tries)
              sp)
            variants tries)
          [pathJoin [opts.Namespace, opts.Controller], pathJoin [opts.Namespace],
            pathJoin ["application"]])
        formats []
    with
    | .ret r => r
    | .next tries => .error ("lazyview: template not found. Tried " ++ stringsJoin tries ", ")

/-- The method `Views.findLayout`. -/
def findLayout (v : Views) (opts : Options) : Except Error String :=
  let layouts :=
    if opts.Layout ≠ "" then [opts.Layout]
    else (if opts.Controller ≠ "" then [opts.Controller] else []) ++ ["application"]
  let variants := if opts.Variants.length = 0 then [""] else opts.Variants
  let namespaces := (if opts.Namespace ≠ "" then [opts.Namespace] else []) ++ [""]
  let sp := if v.SearchPaths.length = 0 then [""] else v.SearchPaths
  match
    rangeLoop (fun layout =>
      rangeLoop (fun dir =>
        rangeLoop (fun variant =>
          rangeLoop (fun spath tries =>
            let filename := layout
            let filename :=
              match opts.Formats with
              | format0 :: _ => filename ++ "." ++ format0
              | [] => filename
            let filename := if variant ≠ "" then filename ++ "+" ++ variant else filename
            let pattern := pathJoin [spath, "layouts", dir, filename ++ ".*"]
            let tries := tries ++ [pattern]
            match v.FS.Glob pattern with
            | .error err => .ret (.error err)
            | .ok files =>
              match firstRegistered v files with
              | some file => .ret (.ok file)
              | none => .next tries)
          sp)
        variants)
      namespaces)
    layouts []
  with
  | .ret r => r
  | .next tries => .error ("lazyview: layout not found. Tried: " ++ stringsJoin tries ", ")

/-! ## Rendering -/

/-- Go `%q` applied to a string (`strconv.Quote`), a function of the
standard library. -/
abbrev Quote := String → String

/-- The method `Views.RenderTemplate`; `w = none` is the nil writer. -/
def RenderTemplate {σ : Type} (quote : Quote) (run : EngineRender σ) (v : Views) (st : σ)
    (ctx : Context)
    (w : Option Writer) (vars : Vars) (file : String) : Rendered σ :=
  let ext := trimDot (filepathExt file)
  match v.Engines ext with
  | none => ⟨st, w, some ("lazyview: no engine for " ++ quote ext)⟩
  | some engine => run engine st ctx v w vars file

/-- Go `bytes.Buffer.Reset`. -/
def bufferReset (_buffer : String) : String := ""

/-- The method `Views.Render`.  The local variables `layout` and `originalW`
start as the empty string and the nil writer, as `var` declares them. -/
def Render {σ : Type} (mime : MimeDB) (quote : Quote) (run : EngineRender σ) (v : Views)
    (world : World σ)
    (opts : Options) : RenderOutcome σ :=
  let layout : String := ""
  let originalW : Option Writer := none
  if opts.Content.length > 0 then
    if !opts.UseLayout then
      ⟨world, opts.Writer ++ opts.Content, none⟩
    else
      -- goto RenderLayout
      let r := RenderTemplate quote run v world.engines opts.Ctx originalW
        [("Content", .str opts.Content)] layout
      ⟨⟨r.state, world.pool⟩, opts.Writer, r.err⟩
  else
    match findTemplate mime v opts with
    | .error err => ⟨world, opts.Writer, some err⟩
    | .ok (file, format) =>
      if !opts.UseLayout then
        let r := RenderTemplate quote run v world.engines opts.Ctx (some opts.Writer) opts.Variables file
        ⟨⟨r.state, world.pool⟩, r.w.getD opts.Writer, r.err⟩
      else
        let buffer := world.pool.headD ""
        let pool := world.pool.tail
        let buffer := bufferReset buffer
        let originalW := opts.Writer
        let r1 := RenderTemplate quote run v world.engines opts.Ctx (some buffer) opts.Variables file
        let buffer := r1.w.getD buffer
        match r1.err with
        | some err => ⟨⟨r1.state, buffer :: pool⟩, opts.Writer, some err⟩
        | none =>
          let opts := { opts with Formats := [format], Writer := originalW }
          match findLayout v opts with
          | .error err => ⟨⟨r1.state, buffer :: pool⟩, opts.Writer, some err⟩
          | .ok layout =>
            let opts := { opts with Content := buffer }
            let r2 := RenderTemplate quote run v r1.state opts.Ctx (some originalW)
              [("Content", .str opts.Content)] layout
            ⟨⟨r2.state, buffer :: pool⟩, r2.w.getD originalW, r2.err⟩

/-! ## The search spaces, as lists of tuples -/

/-- A point of the template search space. -/
structure Tuple where
  format : String
  dir : String
  variant : String
  spath : String
  deriving DecidableEq, Repr

/-- The formats `findTemplate` iterates over: `Formats`, or when it is empty
the default `["html", "json"]` or the extensions of the `Accept` header. -/
def searchFormats (mime : MimeDB) (opts : Options) : List String :=
  if opts.Formats = [] then
    if opts.Accept = "" ∨ opts.Accept = "*/*" then ["html", "json"]
    else getExtensionsForMIMETypes mime opts.Accept
  else opts.Formats

/-- The directories of a request, most specific first: `Namespace/Controller`,
`Namespace`, `application`. -/
def searchDirs (opts : Options) : List String :=
  [pathJoin [opts.Namespace, opts.Controller], pathJoin [opts.Namespace], pathJoin ["application"]]

/-- The variants of a request: `Variants`, or `[""]` when it is empty. -/
def searchVariants (opts : Options) : List String :=
  if opts.Variants = [] then [""] else opts.Variants

/-- The search-path prefixes: `SearchPaths`, or `[""]` when it is empty. -/
def searchPaths (v : Views) : List String :=
  if v.SearchPaths = [] then [""] else v.SearchPaths

/-- The base name of a request: the action, or the partial behind `_`. -/
def baseName (opts : Options) : String :=
  if opts.Action = "" then "_" ++ opts.Partial else opts.Action

/-- The tuples of one format: the non-empty directories outermost, then
variants, then search paths innermost. -/
def templateBlock (v : Views) (opts : Options) (format : String) : List Tuple :=
  ((searchDirs opts).filter fun dir => dir ≠ "").flatMap fun dir =>
    (searchVariants opts).flatMap fun variant =>
      (searchPaths v).map fun spath => ⟨format, dir, variant, spath⟩

/-- The template search space in lexicographic order: formats outermost, then
the non-empty directories, then variants, then search paths innermost. -/
def templateSpace (mime : MimeDB) (v : Views) (opts : Options) : List Tuple :=
  (searchFormats mime opts).flatMap fun format => templateBlock v opts format

/-- The candidate file name `name.format+variant`, each part left out when
empty. -/
def templateFileName (name format variant : String) : String :=
  let filename := name
  let filename := if format ≠ "" then filename ++ "." ++ format else filename
  if variant ≠ "" then filename ++ "+" ++ variant else filename

/-- The pattern `findTemplate` hands to `fs.Glob` at a tuple. -/
def templatePattern (name : String) (t : Tuple) : String :=
  pathJoin [t.spath, t.dir, templateFileName name t.format t.variant ++ ".*"]

/-- A point of the layout search space. -/
structure LayoutTuple where
  layout : String
  dir : String
  variant : String
  spath : String
  deriving DecidableEq, Repr

/-- The layout names of a request: the `Layout` override when set, otherwise
the controller (when set) and then `application`. -/
def layoutNames (opts : Options) : List String :=
  if opts.Layout ≠ "" then [opts.Layout]
  else (if opts.Controller ≠ "" then [opts.Controller] else []) ++ ["application"]

/-- The namespace scopes of a request: the namespace (when set), then the
root. -/
def layoutScopes (opts : Options) : List String :=
  (if opts.Namespace ≠ "" then [opts.Namespace] else []) ++ [""]

/-- The layout search space in lexicographic order: layout names outermost,
then namespace scopes, then variants, then search paths innermost. -/
def layoutSpace (v : Views) (opts : Options) : List LayoutTuple :=
  (layoutNames opts).flatMap fun layout =>
    (layoutScopes opts).flatMap fun dir =>
      (searchVariants opts).flatMap fun variant =>
        (searchPaths v).map fun spath => ⟨layout, dir, variant, spath⟩

/-- The pattern `findLayout` hands to `fs.Glob` at a tuple. -/
def layoutPattern (opts : Options) (t : LayoutTuple) : String :=
  let filename := t.layout
  let filename :=
    match opts.Formats with
    | format0 :: _ => filename ++ "." ++ format0
    | [] => filename
  let filename := if t.variant ≠ "" then filename ++ "+" ++ t.variant else filename
  pathJoin [t.spath, "layouts", t.dir, filename ++ ".*"]

/-- One visit of a pattern, as both resolvers do it: record the pattern, ask
`fs.Glob`, return its error or the first file with a registered extension. -/
def visit {β : Type} (v : Views) (pattern : String) (found : String → β)
    (tries : List String) : Loop (Except Error β) :=
  match v.FS.Glob pattern with
  | .error err => .ret (.error err)
  | .ok files =>
    match firstRegistered v files with
    | some file => .ret (.ok (found file))
    | none => .next (tries ++ [pattern])

/-- A file is registered when its extension (the text after the final dot of
its last path element) is a key of `Engines`. -/
def registered (v : Views) (file : String) : Bool :=
  (v.Engines (trimDot (filepathExt file))).isSome

/-- A pattern is a miss when `fs.Glob` enumerates it without error and none
of the enumerated files is registered. -/
def Miss (v : Views) (pattern : String) : Prop :=
  match v.FS.Glob pattern with
  | .ok files => files.find? (registered v) = none
  | .error _ => False

/-- A pattern is a hit with `file` when `fs.Glob` enumerates it without error
and `file` is the first enumerated file that is registered. -/
def Hit (v : Views) (pattern : String) (file : String) : Prop :=
  match v.FS.Glob pattern with
  | .ok files => files.find? (registered v) = some file
  | .error _ => False

/-- The call `fs.Glob(pattern)` returns without error. -/
def GlobOk (v : Views) (pattern : String) : Prop :=
  match v.FS.Glob pattern with
  | .ok _ => True
  | .error _ => False

/-- The files `fs.Glob(pattern)` enumerates; none when the call fails. -/
def matchesOf (v : Views) (pattern : String) : List String :=
  match v.FS.Glob pattern with
  | .ok files => files
  | .error _ => []

/-- The file is enumerated by `fs.Glob(pattern)`. -/
def Matches (v : Views) (pattern : String) (file : String) : Prop :=
  file ∈ matchesOf v pattern

instance (v : Views) (pattern : String) : Decidable (Miss v pattern) := by
  unfold Miss
  cases v.FS.Glob pattern <;> infer_instance

instance (v : Views) (pattern file : String) : Decidable (Hit v pattern file) := by
  unfold Hit
  cases v.FS.Glob pattern <;> infer_instance

instance (v : Views) (pattern : String) : Decidable (GlobOk v pattern) := by
  unfold GlobOk
  cases v.FS.Glob pattern <;> infer_instance

instance (v : Views) (pattern file : String) : Decidable (Matches v pattern file) := by
  unfold Matches
  infer_instance

/-- The outcome of a resolver once its loops are over. -/
def finish {β : Type} (notFound : String) : Loop (Except Error β) → Except Error β
  | .ret r => r
  | .next tries => .error (notFound ++ stringsJoin tries ", ")

/-! ## Concrete trees -/

/-- What `fs.Glob` answers on a tree given by the list of its files, for the
patterns the resolvers build: an unterminated character class `[` makes the
pattern malformed (`path.ErrBadPattern`); a pattern `stem*` enumerates, in
listing order, the files `stem` followed by characters other than `/`; a
pattern without `*` enumerates the file of that name. -/
def treeGlob (files : List String) (pattern : String) : Except Error (List String) :=
  if '[' ∈ pattern.data ∧ ']' ∉ pattern.data then .error "syntax error in pattern"
  else
    match pattern.data.reverse with
    | '*' :: revStem =>
      .ok (files.filter fun file =>
        revStem.reverse.isPrefixOf file.data && !(file.data.drop revStem.length).contains '/')
    | _ => .ok (files.filter fun file => file = pattern)

/-- The filesystem of a tree given by the list of its files; a file reads as
its own name. -/
def treeFS (files : List String) : FS where
  Glob := treeGlob files
  Open := fun name =>
    if name ∈ files then .ok ⟨.ok name⟩ else .error ("open " ++ name ++ ": file does not exist")

/-- What `%q` gives on a string of ASCII characters: the string in double
quotes, with the backslash, the double quote and the control characters
escaped as `strconv.Quote` escapes them. -/
def testQuote (s : String) : String :=
  let hex (n : Nat) : Char := (Nat.toDigits 16 n).headD '0'
  "\"" ++ String.mk (s.data.flatMap fun c =>
    if c = '\\' then ['\\', '\\']
    else if c = '"' then ['\\', '"']
    else if c.toNat = 7 then ['\\', 'a']
    else if c.toNat = 8 then ['\\', 'b']
    else if c.toNat = 12 then ['\\', 'f']
    else if c = '\n' then ['\\', 'n']
    else if c = '\r' then ['\\', 'r']
    else if c = '\t' then ['\\', 't']
    else if c.toNat = 11 then ['\\', 'v']
    else if c.toNat < 32 ∨ c.toNat = 127 then ['\\', 'x', hex (c.toNat / 16), hex (c.toNat % 16)]
    else [c]) ++ "\""

/-- The engine map of the tests: `txt` and `tpl`. -/
def testEngines (ext : String) : Option EngineId :=
  if ext = "txt" then some 0 else if ext = "tpl" then some 1 else none

/-- The views of the tests over a tree. -/
def testViews (files : List String) (searchPaths : List String) : Views where
  FS := treeFS files
  Engines := testEngines
  Helpers := []
  SearchPaths := searchPaths

/-- The tree `test_views` of the tests. -/
def testTree : List String :=
  ["admin/posts/index.html.tpl", "application/_menu.html.tpl", "application/index.html.tpl",
   "layouts/admin/application.html.tpl", "layouts/application.html.tpl",
   "layouts/posts.html.tpl", "layouts/super.html.tpl",
   "plugin/admin/authors/index.html.tpl", "plugin/layouts/secret.html.tpl",
   "posts/index.html+mobile.tpl", "posts/index.html.tpl", "posts/index.json.tpl",
   "posts/index.txt"]

/-- A MIME table knowing two types. -/
def testMime : MimeDB := fun mimeType =>
  if mimeType = "application/json" then .ok [".json"]
  else if mimeType = "text/html" then .ok [".htm", ".html"]
  else .ok []

/-- Engines that write the name of the file, followed by the `Content`
binding when there is one, and count their calls. -/
def testRun : EngineRender Nat := fun _engine st _ctx _v w vars file =>
  let content :=
    match vars.lookup "Content" with
    | some (.str c) => " " ++ c
    | _ => ""
  ⟨st + 1, w.map fun bytes => bytes ++ file ++ content, none⟩

/-- The empty request. -/
def request : Options where
  Ctx := 0
  Writer := ""
  Variables := []
  Content := ""
  Action := ""
  Partial := ""
  Controller := ""
  Namespace := ""
  Variants := []
  Formats := []
  Accept := ""
  UseLayout := false
  Layout := ""

/-- A tree where `html` exists only under `application` and `json` under the
namespace and controller. -/
def formatTree : List String :=
  ["admin/posts/index.json.tpl", "application/index.html.tpl"]

/-- A request preferring `html` to `json` whose first variant makes a
malformed pattern. -/
def formatRequest : Options :=
  { request with
    Namespace := "admin", Controller := "posts", Action := "index",
    Formats := ["html", "json"], Variants := ["[", ""] }

/-- A tree where the root search path holds only the `json` view and the
plugin search path holds the `html` view. -/
def priorityTree : List String :=
  ["application/index.json.tpl", "plugin/application/index.html.tpl"]

/-- A tree with the same view under the search paths `x` and `x/y`. -/
def overlapTree : List String :=
  ["x/application/fn.html.tpl", "x/y/application/fn.html.tpl"]

/-- A request whose namespace and controller directory `y/application`, put
under the search path `x`, is the directory `application` under the search
path `x/y`. -/
def overlapRequest : Options :=
  { request with Namespace := "y", Controller := "application", Action := "fn" }

/-- A tree with the same view under the search paths `a` and `b`. -/
def twoPathTree : List String :=
  ["a/application/index.html.tpl", "b/application/index.html.tpl"]

/-- A tree with a single view. -/
def singleTree : List String :=
  ["application/index.html.tpl"]

/-- A request for that view whose first variant makes a malformed pattern. -/
def brokenVariantRequest : Options :=
  { request with Action := "index", Variants := ["[", ""] }

/-- Engines that write the name of the file and then fail. -/
def failingRun : EngineRender Nat := fun _engine st _ctx _v w _vars file =>
  ⟨st + 1, w.map fun bytes => bytes ++ file, some "template: execution failed"⟩

/-- The tuples of one layout name: namespace scopes outermost, then variants,
then search paths innermost. -/
def layoutBlock (v : Views) (opts : Options) (layout : String) : List LayoutTuple :=
  (layoutScopes opts).flatMap fun dir =>
    (searchVariants opts).flatMap fun variant =>
      (searchPaths v).map fun spath => ⟨layout, dir, variant, spath⟩

/-- The substring of a path after its final dot (the whole path when it has
no dot). -/
def afterFinalDot (file : String) : String :=
  String.mk (file.data.reverse.takeWhile fun c => c ≠ '.').reverse

/-- The last element of a path: the part after its last `/`. -/
def lastElement (file : String) : String :=
  String.mk (file.data.reverse.takeWhile fun c => c ≠ '/').reverse

/-- The extension of a path: the text after the final dot of its last
element, or the empty string when the last element has no dot. -/
def extensionOf (file : String) : String :=
  if '.' ∈ (lastElement file).data then afterFinalDot (lastElement file) else ""

/-- An engine map with one engine, registered under the text `d/index`. -/
def dirDotEngines (ext : String) : Option EngineId :=
  if ext = "d/index" then some 0 else none

/-- Views whose only engine is registered under `d/index`. -/
def dirDotViews : Views where
  FS := treeFS ["posts.d/index"]
  Engines := dirDotEngines
  Helpers := []
  SearchPaths := []

/-! ## The engine of package `tpl` -/

namespace tpl

/-- How a call ends: it returns, the runtime stops the program with a fatal
error, or the only goroutine waits for ever. -/
inductive Outcome (α : Type) where
  | returned (a : α)
  | fatal (msg : String)
  | blocked

/-- Sequencing of calls: what follows a call that does not return is not
run. -/
def Outcome.bind {α β : Type} (x : Outcome α) (f : α → Outcome β) : Outcome β :=
  match x with
  | .returned a => f a
  | .fatal msg => .fatal msg
  | .blocked => .blocked

instance : Monad Outcome where
  pure := Outcome.returned
  bind := Outcome.bind

/-- The value a call returned, if it returned. -/
def Outcome.result? {α : Type} : Outcome α → Option α
  | .returned a => some a
  | _ => none

/-- The message of the fatal error a call ended in, if it did. -/
def Outcome.fatalMsg {α : Type} : Outcome α → Option String
  | .fatal msg => some msg
  | _ => none

/-- Go `sync.RWMutex`, as seen by one goroutine: whether the exclusive lock
is held and how many shared locks are held. -/
structure RWMutex where
  writer : Bool
  readers : Nat
  deriving DecidableEq, Repr

/-- Go `RWMutex.Lock`. -/
def RWMutex.Lock (m : RWMutex) : Outcome RWMutex :=
  if m.writer = true ∨ m.readers > 0 then .blocked else .returned { m with writer := true }

/-- Go `RWMutex.Unlock`: unlocking an unlocked mutex is a fatal error. -/
def RWMutex.Unlock (m : RWMutex) : Outcome RWMutex :=
  if m.writer = true then .returned { m with writer := false }
  else .fatal "sync: Unlock of unlocked RWMutex"

/-- Go `RWMutex.RLock`. -/
def RWMutex.RLock (m : RWMutex) : Outcome RWMutex :=
  if m.writer = true then .blocked else .returned { m with readers := m.readers + 1 }

/-- Go `RWMutex.RUnlock`. -/
def RWMutex.RUnlock (m : RWMutex) : Outcome RWMutex :=
  if m.readers = 0 then .fatal "sync: RUnlock of unlocked RWMutex"
  else .returned { m with readers := m.readers - 1 }

/-- The Go type `MissingKey` (an `int`). -/
abbrev MissingKey := Int

/-- The constant `MissingKeyZero`. -/
def MissingKeyZero : MissingKey := 0

/-- The constant `MissingKeyError`. -/
def MissingKeyError : MissingKey := 1

/-- The constant `MissingKeyInvalid`. -/
def MissingKeyInvalid : MissingKey := 2

/-- The package `html/template` over compiled templates `τ`:
`template.New(name).Option(option).Parse(text)` (no option when `none`) and
`t.Execute(w, vars)`, which leaves the writer it was handed and an error. -/
structure TemplateLib (τ : Type) where
  Parse : String → Option String → String → Except Error τ
  Execute : τ → Option Writer → Vars → Option Writer × Option Error

/-- The Go struct `Engine`; `tpls = none` is the nil map. -/
structure Engine (τ : Type) where
  tplsL : RWMutex
  MissingKey : MissingKey
  tpls : Option (String → Option τ)

/-- The map read `e.tpls[file]`. -/
def Engine.lookup {τ : Type} (e : Engine τ) (file : String) : Option τ :=
  match e.tpls with
  | none => none
  | some m => m file

/-- The option `genTemplate` sets on a new template for a missing-key
policy. -/
def missingKeyOption (policy : MissingKey) : Option String :=
  if policy = MissingKeyZero then some "missingkey=zero"
  else if policy = MissingKeyError then some "missingkey=error"
  else if policy = MissingKeyInvalid then some "missingkey=invalid"
  else none

/-- The cache after `e.tpls[file] = tpl`, the nil map having been replaced
by an empty one. -/
def Engine.store {τ : Type} (e : Engine τ) (file : String) (tpl : τ) : Engine τ :=
  { e with tpls := some fun key => if key = file then some tpl else e.lookup key }

/-- The method `Engine.genTemplate`.  The deferred calls run when the
function returns, last deferred first; `f.Close()` has no effect here. -/
def genTemplate {τ : Type} (lib : TemplateLib τ) (e : Engine τ) (views : Views)
    (file : String) : Outcome (Engine τ × Except Error τ) := do
  let l ← e.tplsL.Lock
  let e := { e with tplsL := l }
  -- defer e.tplsL.Unlock()
  match views.FS.Open file with
  | .error err =>
    let l ← e.tplsL.Unlock
    let e := { e with tplsL := l }
    -- return nil, err: the deferred Unlock runs
    let l ← e.tplsL.Unlock
    return ({ e with tplsL := l }, .error err)
  | .ok f =>
    -- defer f.Close()
    match f.ReadAll with
    | .error err =>
      let l ← e.tplsL.Unlock
      return ({ e with tplsL := l }, .error err)
    | .ok data =>
      let option : Option String :=
        if e.MissingKey = MissingKeyZero then some "missingkey=zero"
        else if e.MissingKey = MissingKeyError then some "missingkey=error"
        else if e.MissingKey = MissingKeyInvalid then some "missingkey=invalid"
        else none
      match lib.Parse file option data with
      | .error err =>
        let l ← e.tplsL.Unlock
        return ({ e with tplsL := l }, .error err)
      | .ok tpl =>
        let tpls : String → Option τ :=
          match e.tpls with
          | none => fun _ => none
          | some m => m
        let e := { e with tpls := some fun key => if key = file then some tpl else tpls key }
        let l ← e.tplsL.Unlock
        return ({ e with tplsL := l }, .ok tpl)

/-- The method `Engine.Render`. -/
def Render {τ : Type} (lib : TemplateLib τ) (e : Engine τ) (_ctx : Context) (views : Views)
    (w : Option Writer) (vars : Vars) (file : String) : Outcome (Rendered (Engine τ)) := do
  let l ← e.tplsL.RLock
  let e := { e with tplsL := l }
  let t := e.lookup file
  let l ← e.tplsL.RUnlock
  let e := { e with tplsL := l }
  match t with
  | none =>
    let (e, r) ← genTemplate lib e views file
    match r with
    | .error err => return ⟨e, w, some err⟩
    | .ok t =>
      let (w, err) := lib.Execute t w vars
      return ⟨e, w, err⟩
  | some t =>
    let (w, err) := lib.Execute t w vars
    return ⟨e, w, err⟩

/-- One call of `Engine.Render` in a run. -/
structure Call where
  ctx : Context
  views : Views
  w : Option Writer
  vars : Vars
  file : String

/-- A sequential run of calls of `Engine.Render` on one engine. -/
def renderAll {τ : Type} (lib : TemplateLib τ) : Engine τ → List Call → Outcome (Engine τ)
  | e, [] => .returned e
  | e, c :: rest =>
    match Render lib e c.ctx c.views c.w c.vars c.file with
    | .returned r => renderAll lib r.state rest
    | .fatal msg => .fatal msg
    | .blocked => .blocked

/-- An in-memory filesystem: each file with what reading it gives. -/
def memFS (files : List (String × Except Error String)) : FS where
  Glob := treeGlob (files.map fun entry => entry.1)
  Open := fun name =>
    match files.lookup name with
    | some content => .ok ⟨content⟩
    | none => .error ("open " ++ name ++ ": file does not exist")

/-- Views over an in-memory filesystem with the engine `tpl`. -/
def memViews (files : List (String × Except Error String)) : Views where
  FS := memFS files
  Engines := testEngines
  Helpers := []
  SearchPaths := []

/-- A template library whose compiled template is the source text, written
out as it is; the text of two opening braces does not parse, and the text
`fail` compiles but fails in execution. -/
def testLib : TemplateLib String where
  Parse := fun _name _option text =>
    if text = "\x7b\x7b" then .error "template: unclosed action" else .ok text
  Execute := fun t w _vars =>
    if t = "fail" then (w, some "template: execution failed")
    else (w.map fun bytes => bytes ++ t, none)

/-- A new engine, the zero value of `Engine`. -/
def newEngine : Engine String where
  tplsL := ⟨false, 0⟩
  MissingKey := MissingKeyZero
  tpls := none

/-- The files of the in-memory filesystem of the examples. -/
def memFiles : List (String × Except Error String) :=
  [("test.tpl", .ok "Hello"), ("broken.tpl", .ok "\x7b\x7b"),
   ("unreadable.tpl", .error "read unreadable.tpl: input/output error"),
   ("fail.tpl", .ok "fail")]

end tpl

/-- In the list `xs`, `a` is listed at or before `b`: `a` occurs at a place
that no occurrence of `b` precedes. -/
def AtOrBefore {α : Type} (xs : List α) (a b : α) : Prop :=
  ∃ l1 l2, xs = l1 ++ a :: l2 ∧ b ∉ l1

/-! ## Lemmas on loops -/

theorem rangeLoop_append {α β : Type} (body : α → List String → Loop β)
    (xs ys : List α) (tries : List String) :
    rangeLoop body (xs ++ ys) tries =
      match rangeLoop body xs tries with
      | .ret r => .ret r
      | .next tries1 => rangeLoop body ys tries1 := by
  induction xs generalizing tries with
  | nil => rfl
  | cons x rest ih =>
    simp only [List.cons_append, rangeLoop]
    cases body x tries with
    | ret r => rfl
    | next tries1 => exact ih tries1

theorem rangeLoop_flatMap {α γ β : Type} (body : γ → List String → Loop β)
    (g : α → List γ) (xs : List α) (tries : List String) :
    rangeLoop body (xs.flatMap g) tries =
      rangeLoop (fun x tr => rangeLoop body (g x) tr) xs tries := by
  induction xs generalizing tries with
  | nil => rfl
  | cons x rest ih =>
    rw [List.flatMap_cons, rangeLoop_append]
    simp only [rangeLoop]
    cases rangeLoop body (g x) tries with
    | ret r => rfl
    | next tries1 => exact ih tries1

theorem rangeLoop_map {α γ β : Type} (body : γ → List String → Loop β)
    (g : α → γ) (xs : List α) (tries : List String) :
    rangeLoop body (xs.map g) tries = rangeLoop (fun x tr => body (g x) tr) xs tries := by
  induction xs generalizing tries with
  | nil => rfl
  | cons x rest ih =>
    simp only [List.map_cons, rangeLoop]
    cases body (g x) tries with
    | ret r => rfl
    | next tries1 => exact ih tries1

theorem rangeLoop_filter {α β : Type} (body : α → List String → Loop β)
    (keep : α → Bool) (xs : List α) (tries : List String) :
    rangeLoop body (xs.filter keep) tries =
      rangeLoop (fun x tries => if keep x then body x tries else .next tries) xs tries := by
  induction xs generalizing tries with
  | nil => rfl
  | cons x rest ih =>
    by_cases hk : keep x = true
    · simp only [List.filter_cons, hk, if_true, rangeLoop]
      cases body x tries with
      | ret r => rfl
      | next tries1 => exact ih tries1
    · simp only [List.filter_cons, hk, rangeLoop]
      exact ih tries

/-- A loop whose iterations all go on returns nothing and has recorded one
pattern per iteration. -/
theorem rangeLoop_all_next {α β : Type} (body : α → List String → Loop β)
    (pat : α → String) (xs : List α) (tries : List String)
    (h : ∀ x ∈ xs, ∀ tr, body x tr = .next (tr ++ [pat x])) :
    rangeLoop body xs tries = .next (tries ++ xs.map pat) := by
  induction xs generalizing tries with
  | nil => simp [rangeLoop]
  | cons x rest ih =>
    simp only [rangeLoop, h x (List.mem_cons_self x rest) tries]
    rw [ih _ (fun y hy => h y (List.mem_cons_of_mem x hy))]
    simp

/-- A loop returns what its first returning iteration returns. -/
theorem rangeLoop_first_ret {α β : Type} (body : α → List String → Loop β)
    (pat : α → String) (pre post : List α) (x : α) (r : β) (tries : List String)
    (hpre : ∀ u ∈ pre, ∀ tr, body u tr = .next (tr ++ [pat u]))
    (hx : ∀ tr, body x tr = .ret r) :
    rangeLoop body (pre ++ x :: post) tries = .ret r := by
  rw [rangeLoop_append, rangeLoop_all_next body pat pre tries hpre]
  simp only [rangeLoop, hx]

/-- A value returned by a loop was returned by the body at one of the
elements, every element before it having gone on. -/
theorem rangeLoop_ret_split {α β : Type} (body : α → List String → Loop β)
    (xs : List α) (tries : List String) (r : β) (h : rangeLoop body xs tries = .ret r) :
    ∃ pre x post tr, xs = pre ++ x :: post ∧ body x tr = .ret r ∧
      ∀ u ∈ pre, ∃ tr0 tr1, body u tr0 = .next tr1 := by
  induction xs generalizing tries with
  | nil => simp [rangeLoop] at h
  | cons y rest ih =>
    simp only [rangeLoop] at h
    cases hb : body y tries with
    | ret r0 =>
      rw [hb] at h
      injection h with h
      subst h
      exact ⟨[], y, rest, tries, rfl, hb, by simp⟩
    | next tries1 =>
      rw [hb] at h
      obtain ⟨pre, x, post, tr, hxs, hx, hpre⟩ := ih tries1 h
      refine ⟨y :: pre, x, post, tr, by simp [hxs], hx, ?_⟩
      intro u hu
      rcases List.mem_cons.mp hu with rfl | hu
      · exact ⟨tries, tries1, hb⟩
      · exact hpre u hu

/-! ## The resolvers as searches over their spaces -/

theorem string_length_eq_zero (s : String) : s.length = 0 ↔ s = "" := by
  constructor
  · intro h
    have hd : s.data = [] := List.length_eq_zero.mp h
    exact String.ext hd
  · rintro rfl
    rfl

/-- The loops of `findTemplate` are one loop over `templateSpace`. -/
theorem findTemplate_eq (mime : MimeDB) (v : Views) (opts : Options) :
    findTemplate mime v opts =
      if opts.Action = "" ∧ opts.Partial = "" then
        .error "lazyview: no action or partial defined"
      else
        finish "lazyview: template not found. Tried "
          (rangeLoop (fun t => visit v (templatePattern (baseName opts) t)
            (fun file => (file, t.format))) (templateSpace mime v opts) []) := by
  unfold findTemplate
  by_cases hbase : opts.Action = "" ∧ opts.Partial = ""
  · simp only [hbase, and_self, if_true]
  · simp only [hbase, if_false]
    unfold templateSpace templateBlock searchFormats searchVariants searchPaths searchDirs
    simp only [rangeLoop_flatMap, rangeLoop_map, rangeLoop_filter, List.length_eq_zero,
      string_length_eq_zero]
    have hfin : ∀ (l1 l2 : Loop (Except Error (String × String))), l1 = l2 →
        (match l1 with
          | .ret r => r
          | .next tries =>
            .error ("lazyview: template not found. Tried " ++ stringsJoin tries ", ")) =
          finish "lazyview: template not found. Tried " l2 := by
      intro l1 l2 h
      subst h
      cases l1 <;> rfl
    apply hfin
    congr 1
    funext format tr
    congr 1
    funext dir tries
    by_cases hd : dir = ""
    · simp [hd]
    · simp only [hd, if_false, ne_eq, not_false_eq_true, decide_True, if_true]
      rfl

/-- The loops of `findLayout` are one loop over `layoutSpace`. -/
theorem findLayout_eq (v : Views) (opts : Options) :
    findLayout v opts =
      finish "lazyview: layout not found. Tried: "
        (rangeLoop (fun t => visit v (layoutPattern opts t) (fun file => file))
          (layoutSpace v opts) []) := by
  unfold findLayout
  unfold layoutSpace layoutNames layoutScopes searchVariants searchPaths
  simp only [rangeLoop_flatMap, rangeLoop_map, List.length_eq_zero]
  have hfin : ∀ (l1 l2 : Loop (Except Error String)), l1 = l2 →
      (match l1 with
        | .ret r => r
        | .next tries =>
          .error ("lazyview: layout not found. Tried: " ++ stringsJoin tries ", ")) =
        finish "lazyview: layout not found. Tried: " l2 := by
    intro l1 l2 h
    subst h
    cases l1 <;> rfl
  apply hfin
  rfl

/-! ## Lemmas on a visit -/

theorem firstRegistered_eq_find (v : Views) (files : List String) :
    firstRegistered v files = files.find? (registered v) := by
  induction files with
  | nil => rfl
  | cons file rest ih =>
    unfold firstRegistered
    cases h : v.Engines (trimDot (filepathExt file)) with
    | none => simp [List.find?, registered, h, ih]
    | some e => simp [List.find?, registered, h]

theorem visit_miss {β : Type} (v : Views) (pattern : String) (found : String → β)
    (h : Miss v pattern) (tries : List String) :
    visit v pattern found tries = .next (tries ++ [pattern]) := by
  unfold Miss at h
  unfold visit
  cases hg : v.FS.Glob pattern with
  | error e => simp [hg] at h
  | ok files =>
    simp only [hg] at h
    simp [firstRegistered_eq_find, h]

theorem visit_hit {β : Type} (v : Views) (pattern file : String) (found : String → β)
    (h : Hit v pattern file) (tries : List String) :
    visit v pattern found tries = .ret (.ok (found file)) := by
  unfold Hit at h
  unfold visit
  cases hg : v.FS.Glob pattern with
  | error e => simp [hg] at h
  | ok files =>
    simp only [hg] at h
    simp [firstRegistered_eq_find, h]

theorem visit_next {β : Type} (v : Views) (pattern : String) (found : String → β)
    (tries tries1 : List String) (h : visit v pattern found tries = .next tries1) :
    Miss v pattern := by
  unfold visit at h
  unfold Miss
  cases hg : v.FS.Glob pattern with
  | error e => simp [hg] at h
  | ok files =>
    simp only [hg, firstRegistered_eq_find] at h ⊢
    cases hf : files.find? (registered v) with
    | none => rfl
    | some file => simp [hf] at h

theorem visit_ret_ok {β : Type} (v : Views) (pattern : String) (found : String → β)
    (tries : List String) (r : β) (h : visit v pattern found tries = .ret (.ok r)) :
    ∃ file, Hit v pattern file ∧ r = found file := by
  unfold visit at h
  unfold Hit
  cases hg : v.FS.Glob pattern with
  | error e => simp [hg] at h
  | ok files =>
    simp only [hg, firstRegistered_eq_find] at h ⊢
    cases hf : files.find? (registered v) with
    | none => simp [hf] at h
    | some file =>
      simp only [hf, Loop.ret.injEq, Except.ok.injEq] at h
      exact ⟨file, rfl, h.symm⟩

theorem hit_matches (v : Views) (pattern file : String) (h : Hit v pattern file) :
    Matches v pattern file ∧ registered v file = true := by
  unfold Hit at h
  unfold Matches matchesOf
  cases hg : v.FS.Glob pattern with
  | error e => simp [hg] at h
  | ok files =>
    simp only [hg] at h ⊢
    exact ⟨List.mem_of_find?_eq_some h, by simpa using List.find?_some h⟩

theorem miss_not_matches (v : Views) (pattern file : String) (h : Miss v pattern)
    (hm : Matches v pattern file) : registered v file = false := by
  unfold Miss at h
  unfold Matches matchesOf at hm
  cases hg : v.FS.Glob pattern with
  | error e => simp [hg] at h
  | ok files =>
    simp only [hg] at h hm
    have := List.find?_eq_none.mp h file hm
    simpa using this

theorem globOk_cases (v : Views) (pattern : String) (h : GlobOk v pattern) :
    Miss v pattern ∨ ∃ file, Hit v pattern file := by
  unfold GlobOk at h
  unfold Miss Hit
  cases hg : v.FS.Glob pattern with
  | error e => simp [hg] at h
  | ok files =>
    simp only [hg]
    cases hf : files.find? (registered v) with
    | none => exact Or.inl rfl
    | some file => exact Or.inr ⟨file, rfl⟩

/-- In a list of patterns that all enumerate without error and one of which
has a registered match, there is a first hit. -/
theorem first_hit_split {α : Type} (v : Views) (pat : α → String) (xs : List α)
    (hok : ∀ x ∈ xs, GlobOk v (pat x))
    (hex : ∃ x ∈ xs, ∃ file, Matches v (pat x) file ∧ registered v file = true) :
    ∃ pre t post file, xs = pre ++ t :: post ∧ (∀ u ∈ pre, Miss v (pat u)) ∧
      Hit v (pat t) file := by
  induction xs with
  | nil =>
    obtain ⟨x, hx, _⟩ := hex
    simp at hx
  | cons y rest ih =>
    rcases globOk_cases v (pat y) (hok y (List.mem_cons_self y rest)) with hm | ⟨file, hh⟩
    · obtain ⟨x, hx, file, hmat, hreg⟩ := hex
      have hxrest : x ∈ rest := by
        rcases List.mem_cons.mp hx with rfl | h
        · rw [miss_not_matches v (pat x) file hm hmat] at hreg
          simp at hreg
        · exact h
      obtain ⟨pre, t, post, f, hsplit, hpre, hhit⟩ :=
        ih (fun x hx => hok x (List.mem_cons_of_mem y hx)) ⟨x, hxrest, file, hmat, hreg⟩
      refine ⟨y :: pre, t, post, f, by simp [hsplit], ?_, hhit⟩
      intro u hu
      rcases List.mem_cons.mp hu with rfl | hu
      · exact hm
      · exact hpre u hu
    · exact ⟨[], y, rest, file, rfl, by simp, hh⟩

/-! ## Template resolution -/

/-- The search of `findTemplate` stops at the first hit of its space. -/
theorem findTemplate_at_split (mime : MimeDB) (v : Views) (opts : Options)
    (pre post : List Tuple) (t : Tuple) (file : String)
    (hbase : ¬(opts.Action = "" ∧ opts.Partial = ""))
    (hspace : templateSpace mime v opts = pre ++ t :: post)
    (hpre : ∀ u ∈ pre, Miss v (templatePattern (baseName opts) u))
    (hhit : Hit v (templatePattern (baseName opts) t) file) :
    findTemplate mime v opts = .ok (file, t.format) := by
  rw [findTemplate_eq, if_neg hbase, hspace,
    rangeLoop_first_ret _ (fun u => templatePattern (baseName opts) u) pre post t
      (.ok (file, t.format)) []
      (fun u hu tr => visit_miss v _ _ (hpre u hu) tr)
      (fun tr => visit_hit v _ file _ hhit tr)]
  rfl

theorem base_name_nonempty (opts : Options) (hname : opts.Action ≠ "" ∨ opts.Partial ≠ "") :
    ¬(opts.Action = "" ∧ opts.Partial = "") := by
  rintro ⟨ha, hp⟩
  rcases hname with h | h
  · exact h ha
  · exact h hp

/-- C1: for a request with a non-empty base name, when the template search
space (formats outermost, then the non-empty directories, then variants, then
search paths innermost) splits at a tuple such that every earlier tuple is
enumerated by `fs.Glob` without error and without a registered file, and the
tuple itself is enumerated without error with `file` its first registered
file, `findTemplate` returns `file` together with the format of that tuple. -/
theorem findTemplate_first_match (mime : MimeDB) (v : Views) (opts : Options)
    (pre post : List Tuple) (t : Tuple) (file : String)
    (hname : opts.Action ≠ "" ∨ opts.Partial ≠ "")
    (hspace : templateSpace mime v opts = pre ++ t :: post)
    (hpre : ∀ u ∈ pre, Miss v (templatePattern (baseName opts) u))
    (hhit : Hit v (templatePattern (baseName opts) t) file) :
    findTemplate mime v opts = .ok (file, t.format) := by
  have hbase : ¬(opts.Action = "" ∧ opts.Partial = "") := by
    rintro ⟨ha, hp⟩
    rcases hname with h | h
    · exact h ha
    · exact h hp
  rw [findTemplate_eq, if_neg hbase, hspace,
    rangeLoop_first_ret _ (fun u => templatePattern (baseName opts) u) pre post t
      (.ok (file, t.format)) []
      (fun u hu tr => visit_miss v _ _ (hpre u hu) tr)
      (fun tr => visit_hit v _ file _ hhit tr)]
  rfl

theorem findTemplate_first_match_witness :
    findTemplate testMime (testViews testTree ["", "plugin"])
        { request with Namespace := "admin", Controller := "authors", Action := "index" } =
      .ok ("plugin/admin/authors/index.html.tpl", "html") :=
  findTemplate_first_match testMime (testViews testTree ["", "plugin"])
    { request with Namespace := "admin", Controller := "authors", Action := "index" }
    [⟨"html", "admin/authors", "", ""⟩]
    [⟨"html", "admin", "", ""⟩, ⟨"html", "admin", "", "plugin"⟩,
     ⟨"html", "application", "", ""⟩, ⟨"html", "application", "", "plugin"⟩,
     ⟨"json", "admin/authors", "", ""⟩, ⟨"json", "admin/authors", "", "plugin"⟩,
     ⟨"json", "admin", "", ""⟩, ⟨"json", "admin", "", "plugin"⟩,
     ⟨"json", "application", "", ""⟩, ⟨"json", "application", "", "plugin"⟩]
    ⟨"html", "admin/authors", "", "plugin"⟩ "plugin/admin/authors/index.html.tpl"
    (by decide) (by decide) (by decide) (by decide)

theorem templateBlock_format (v : Views) (opts : Options) (format : String) :
    ∀ u ∈ templateBlock v opts format, u.format = format := by
  intro u hu
  simp only [templateBlock, List.mem_flatMap, List.mem_map] at hu
  obtain ⟨_, _, _, _, _, _, rfl⟩ := hu
  rfl

/-- The template search space of a request with two formats is the block of
the first format followed by the block of the second. -/
theorem templateSpace_two_formats (mime : MimeDB) (v : Views) (opts : Options)
    (f1 f2 : String) (hformats : opts.Formats = [f1, f2]) :
    templateSpace mime v opts = templateBlock v opts f1 ++ templateBlock v opts f2 := by
  have hfm : searchFormats mime opts = [f1, f2] := by simp [searchFormats, hformats]
  unfold templateSpace
  rw [hfm]
  simp only [List.flatMap_cons, List.flatMap_nil, List.append_nil]

/-- C2 (as amended): for a request with a non-empty base name and
`Formats = [f1, f2]`, if some tuple of format `f1` (in any directory, such
as `application`) is matched by a registered file, and `fs.Glob` fails on no
pattern of format `f1`, then `findTemplate` returns a file of format `f1`,
whatever files of format `f2` the more specific directories hold. -/
theorem format_before_directory (mime : MimeDB) (v : Views) (opts : Options)
    (f1 f2 : String) (t : Tuple) (file : String)
    (hname : opts.Action ≠ "" ∨ opts.Partial ≠ "")
    (hformats : opts.Formats = [f1, f2])
    (ht : t ∈ templateSpace mime v opts) (htf : t.format = f1)
    (hmatch : Matches v (templatePattern (baseName opts) t) file)
    (hreg : registered v file = true)
    (hok : ∀ u ∈ templateSpace mime v opts, u.format = f1 →
      GlobOk v (templatePattern (baseName opts) u)) :
    ∃ file1, findTemplate mime v opts = .ok (file1, f1) := by
  have hsp := templateSpace_two_formats mime v opts f1 f2 hformats
  have hb1 := templateBlock_format v opts f1
  have hb2 := templateBlock_format v opts f2
  generalize hB1 : templateBlock v opts f1 = b1 at hsp hb1
  generalize hB2 : templateBlock v opts f2 = b2 at hsp hb2
  have ht1 : t ∈ b1 := by
    rw [hsp] at ht
    rcases List.mem_append.mp ht with h | h
    · exact h
    · have h21 : f1 = f2 := by rw [← htf, hb2 t h]
      rw [← hB2, ← h21, hB1] at h
      exact h
  have hok1 : ∀ u ∈ b1, GlobOk v (templatePattern (baseName opts) u) := by
    intro u hu
    exact hok u (by rw [hsp]; exact List.mem_append_left _ hu) (hb1 u hu)
  obtain ⟨pre, t1, post, file1, hsplit, hpre, hhit⟩ :=
    first_hit_split v (templatePattern (baseName opts)) b1 hok1 ⟨t, ht1, file, hmatch, hreg⟩
  have ht1f : t1.format = f1 := hb1 t1 (by rw [hsplit]; simp)
  refine ⟨file1, ?_⟩
  rw [← ht1f]
  exact findTemplate_at_split mime v opts pre (post ++ b2) t1 file1 (base_name_nonempty opts hname)
    (by rw [hsp, hsplit]; simp) hpre hhit

theorem format_before_directory_witness :
    ∃ file1, findTemplate testMime (testViews formatTree [])
      { formatRequest with Variants := [] } = .ok (file1, "html") :=
  format_before_directory testMime (testViews formatTree [])
    { formatRequest with Variants := [] } "html" "json"
    ⟨"html", "application", "", ""⟩ "application/index.html.tpl"
    (by decide) rfl (by decide) rfl (by decide) (by decide) (by decide)

/-- C2 (as stated) fails: `html` is preferred and has a registered file under
`application`, `json` has one under `admin/posts`, yet the first pattern
tried, `admin/posts/index.html+[.*`, is malformed and `findTemplate` returns
the error of `fs.Glob` instead of a file of format `html`. -/
theorem format_before_directory_counterexample :
    formatRequest.Formats = ["html", "json"] ∧
    Hit (testViews formatTree [])
      (templatePattern "index" ⟨"html", "application", "", ""⟩) "application/index.html.tpl" ∧
    Hit (testViews formatTree [])
      (templatePattern "index" ⟨"json", "admin/posts", "", ""⟩) "admin/posts/index.json.tpl" ∧
    (⟨"html", "application", "", ""⟩ : Tuple) ∈
      templateSpace testMime (testViews formatTree []) formatRequest ∧
    (⟨"json", "admin/posts", "", ""⟩ : Tuple) ∈
      templateSpace testMime (testViews formatTree []) formatRequest ∧
    findTemplate testMime (testViews formatTree []) formatRequest =
      .error "syntax error in pattern" := by
  decide

/-- C3 (as stated) fails.  In the tree of the tests, with search paths
`["", "plugin"]`, the view `application/index.html.tpl` matches under the
first search path, yet `findTemplate` returns
`plugin/admin/authors/index.html.tpl` from the second search path, the more
specific directory (the result the tests of the repository expect).  And
with a `json` view under the first search path and an `html` view under the
second, `findTemplate` returns the `html` view: the format is consulted
first and the search path last. -/
theorem priority_order_counterexample :
    (testViews testTree ["", "plugin"]).SearchPaths = ["", "plugin"] ∧
    (⟨"html", "application", "", ""⟩ : Tuple) ∈
      templateSpace testMime (testViews testTree ["", "plugin"])
        { request with Namespace := "admin", Controller := "authors", Action := "index" } ∧
    Hit (testViews testTree ["", "plugin"])
      (templatePattern "index" ⟨"html", "application", "", ""⟩) "application/index.html.tpl" ∧
    findTemplate testMime (testViews testTree ["", "plugin"])
        { request with Namespace := "admin", Controller := "authors", Action := "index" } =
      .ok ("plugin/admin/authors/index.html.tpl", "html") ∧
    (⟨"json", "application", "", ""⟩ : Tuple) ∈
      templateSpace testMime (testViews priorityTree ["", "plugin"])
        { request with Action := "index" } ∧
    Hit (testViews priorityTree ["", "plugin"])
      (templatePattern "index" ⟨"json", "application", "", ""⟩) "application/index.json.tpl" ∧
    findTemplate testMime (testViews priorityTree ["", "plugin"])
        { request with Action := "index" } =
      .ok ("plugin/application/index.html.tpl", "html") := by
  decide

/-! ## Search-path priority -/

theorem rangeLoop_ret_mem {α β : Type} (body : α → List String → Loop β)
    (xs : List α) (tries : List String) (r : β) (h : rangeLoop body xs tries = .ret r) :
    ∃ x ∈ xs, ∃ tr, body x tr = .ret r := by
  obtain ⟨pre, x, post, tr, hxs, hx, _⟩ := rangeLoop_ret_split body xs tries r h
  exact ⟨x, by rw [hxs]; simp, tr, hx⟩

/-- Of two different elements of a list, the one whose occurrence lies before
every occurrence of the other stands before each occurrence of the other. -/
theorem mem_before {α : Type} (l1 l2 s1 s2 : List α) (p1 p2 : α)
    (h : l1 ++ p1 :: l2 = s1 ++ p2 :: s2) (hne : p1 ≠ p2) (hp2 : p2 ∉ l1) : p1 ∈ s1 := by
  rcases List.append_eq_append_iff.mp h with ⟨a, hs1, ha⟩ | ⟨c, hl1, hc⟩
  · cases a with
    | nil =>
      simp only [List.nil_append, List.cons.injEq] at ha
      exact absurd ha.1 hne
    | cons x rest =>
      simp only [List.cons_append, List.cons.injEq] at ha
      rw [hs1, ha.1]
      simp
  · cases c with
    | nil =>
      simp only [List.nil_append, List.cons.injEq] at hc
      exact absurd hc.1.symm hne
    | cons x rest =>
      simp only [List.cons_append, List.cons.injEq] at hc
      exfalso
      apply hp2
      rw [hl1, hc.1]
      simp

/-- Where a file returned by `findTemplate` comes from: a tuple of the search
space that is a hit with that file, every earlier search path having been a
miss for the same format, directory and variant. -/
theorem findTemplate_ok_origin (mime : MimeDB) (v : Views) (opts : Options)
    (file fmt : String) (h : findTemplate mime v opts = .ok (file, fmt)) :
    ∃ dir variant s1 q s2,
      (⟨fmt, dir, variant, q⟩ : Tuple) ∈ templateSpace mime v opts ∧
      searchPaths v = s1 ++ q :: s2 ∧
      Hit v (templatePattern (baseName opts) ⟨fmt, dir, variant, q⟩) file ∧
      ∀ u ∈ s1, (⟨fmt, dir, variant, u⟩ : Tuple) ∈ templateSpace mime v opts ∧
        Miss v (templatePattern (baseName opts) ⟨fmt, dir, variant, u⟩) := by
  rw [findTemplate_eq] at h
  by_cases hbase : opts.Action = "" ∧ opts.Partial = ""
  · rw [if_pos hbase] at h
    cases h
  · rw [if_neg hbase] at h
    have hmem : ∀ (f d vr p : String), f ∈ searchFormats mime opts →
        d ∈ (searchDirs opts).filter (fun dir => dir ≠ "") → vr ∈ searchVariants opts →
        p ∈ searchPaths v → (⟨f, d, vr, p⟩ : Tuple) ∈ templateSpace mime v opts := by
      intro f d vr p hf hd hvr hp
      simp only [templateSpace, templateBlock, List.mem_flatMap, List.mem_map]
      exact ⟨f, hf, d, hd, vr, hvr, p, hp, rfl⟩
    cases hl : rangeLoop (fun t => visit v (templatePattern (baseName opts) t)
        (fun file => (file, t.format))) (templateSpace mime v opts) [] with
    | next tries =>
      rw [hl] at h
      cases h
    | ret r =>
      rw [hl] at h
      simp only [finish] at h
      subst h
      unfold templateSpace templateBlock at hl
      simp only [rangeLoop_flatMap, rangeLoop_map] at hl
      obtain ⟨f, hf, tr1, h1⟩ := rangeLoop_ret_mem _ _ _ _ hl
      obtain ⟨d, hd, tr2, h2⟩ := rangeLoop_ret_mem _ _ _ _ h1
      obtain ⟨vr, hvr, tr3, h3⟩ := rangeLoop_ret_mem _ _ _ _ h2
      obtain ⟨s1, q, s2, tr4, hsp, hq, hs1⟩ := rangeLoop_ret_split _ _ _ _ h3
      obtain ⟨file0, hhit, hr⟩ := visit_ret_ok v _ _ _ _ hq
      simp only [Prod.mk.injEq] at hr
      obtain ⟨rfl, rfl⟩ := hr
      refine ⟨d, vr, s1, q, s2, hmem fmt d vr q hf hd hvr (by rw [hsp]; simp), hsp, hhit, ?_⟩
      intro u hu
      refine ⟨hmem fmt d vr u hf hd hvr (by rw [hsp]; simp [hu]), ?_⟩
      obtain ⟨tr0, tr1, hnext⟩ := hs1 u hu
      exact visit_next v _ _ tr0 tr1 hnext

/-- C4 (as amended): let `p1` stand in the search paths before every
occurrence of a different search path `p2`, let `file1` be registered, let
every pattern built with `p2` that matches `file2` have its counterpart built
with `p1` (same format, directory and variant) match `file1`, and let `file2`
be matched by no pattern built with a search path other than `p2`.  Then
`findTemplate` never returns `file2`. -/
theorem search_path_priority (mime : MimeDB) (v : Views) (opts : Options)
    (p1 p2 file1 file2 fmt : String) (l1 l2 : List String)
    (hsp : searchPaths v = l1 ++ p1 :: l2) (hp2 : p2 ∉ l1) (hne : p1 ≠ p2)
    (hreg : registered v file1 = true)
    (hsame : ∀ t ∈ templateSpace mime v opts, t.spath = p2 →
      Matches v (templatePattern (baseName opts) t) file2 →
      Matches v (templatePattern (baseName opts) { t with spath := p1 }) file1)
    (honly : ∀ t ∈ templateSpace mime v opts,
      Matches v (templatePattern (baseName opts) t) file2 → t.spath = p2) :
    findTemplate mime v opts ≠ .ok (file2, fmt) := by
  intro hres
  obtain ⟨dir, variant, s1, q, s2, hmemq, hsplit, hhit, hpre⟩ :=
    findTemplate_ok_origin mime v opts file2 fmt hres
  have hmat := (hit_matches v _ _ hhit).1
  have hq : q = p2 := honly _ hmemq hmat
  subst hq
  have hp1 : p1 ∈ s1 := mem_before l1 l2 s1 s2 p1 q (by rw [← hsp, hsplit]) hne hp2
  obtain ⟨_, hmiss⟩ := hpre p1 hp1
  have hm1 := hsame _ hmemq rfl hmat
  have := miss_not_matches v _ file1 hmiss hm1
  rw [hreg] at this
  cases this

theorem search_path_priority_witness :
    findTemplate testMime (testViews twoPathTree ["a", "b"]) { request with Action := "index" } ≠
      .ok ("b/application/index.html.tpl", "html") :=
  search_path_priority testMime (testViews twoPathTree ["a", "b"])
    { request with Action := "index" } "a" "b"
    "a/application/index.html.tpl" "b/application/index.html.tpl" "html" [] ["b"]
    (by decide) (by decide) (by decide) (by decide) (by decide) (by decide)

/-- C4 (as stated) fails: `x/application/fn.html.tpl` and
`x/y/application/fn.html.tpl` differ only in their search path, `x` is listed
before `x/y`, both are registered candidates of the request for the format
`html` and the directory `application`, and `findTemplate` returns the one
under `x/y`: the first pattern tried, the directory `y/application` under
the search path `x`, already matches it. -/
theorem search_path_priority_counterexample :
    (testViews overlapTree ["x", "x/y"]).SearchPaths = ["x", "x/y"] ∧
    pathJoin ["x", "application", "fn.html.tpl"] = "x/application/fn.html.tpl" ∧
    pathJoin ["x/y", "application", "fn.html.tpl"] = "x/y/application/fn.html.tpl" ∧
    (⟨"html", "application", "", "x"⟩ : Tuple) ∈
      templateSpace testMime (testViews overlapTree ["x", "x/y"]) overlapRequest ∧
    (⟨"html", "application", "", "x/y"⟩ : Tuple) ∈
      templateSpace testMime (testViews overlapTree ["x", "x/y"]) overlapRequest ∧
    Hit (testViews overlapTree ["x", "x/y"])
      (templatePattern "fn" ⟨"html", "application", "", "x"⟩) "x/application/fn.html.tpl" ∧
    Hit (testViews overlapTree ["x", "x/y"])
      (templatePattern "fn" ⟨"html", "application", "", "x/y"⟩) "x/y/application/fn.html.tpl" ∧
    findTemplate testMime (testViews overlapTree ["x", "x/y"]) overlapRequest =
      .ok ("x/y/application/fn.html.tpl", "html") := by
  decide

/-! ## Completeness and the not-found error -/

/-- C5 (as amended): for a request with a non-empty base name, if `fs.Glob`
fails on no pattern of the search space, `file` is registered and matches
some pattern of the search space, and no other registered file matches any
pattern of the search space, then `findTemplate` succeeds and returns
`file`, with one of the formats of the request. -/
theorem unique_candidate_found (mime : MimeDB) (v : Views) (opts : Options) (file : String)
    (hname : opts.Action ≠ "" ∨ opts.Partial ≠ "")
    (hok : ∀ t ∈ templateSpace mime v opts, GlobOk v (templatePattern (baseName opts) t))
    (hex : ∃ t ∈ templateSpace mime v opts,
      Matches v (templatePattern (baseName opts) t) file ∧ registered v file = true)
    (huniq : ∀ t ∈ templateSpace mime v opts, ∀ g,
      Matches v (templatePattern (baseName opts) t) g → registered v g = true → g = file) :
    ∃ format ∈ searchFormats mime opts, findTemplate mime v opts = .ok (file, format) := by
  obtain ⟨t0, ht0, hm0, hr0⟩ := hex
  obtain ⟨pre, t, post, file1, hsplit, hpre, hhit⟩ :=
    first_hit_split v (templatePattern (baseName opts)) (templateSpace mime v opts) hok
      ⟨t0, ht0, file, hm0, hr0⟩
  have htmem : t ∈ templateSpace mime v opts := by rw [hsplit]; simp
  obtain ⟨hm1, hr1⟩ := hit_matches v _ _ hhit
  have hfile : file1 = file := huniq t htmem file1 hm1 hr1
  subst hfile
  have hfmt : t.format ∈ searchFormats mime opts := by
    simp only [templateSpace, List.mem_flatMap] at htmem
    obtain ⟨f, hf, hb⟩ := htmem
    rw [templateBlock_format v opts f t hb]
    exact hf
  exact ⟨t.format, hfmt,
    findTemplate_at_split mime v opts pre post t file1 (base_name_nonempty opts hname)
      hsplit hpre hhit⟩

theorem unique_candidate_found_witness :
    ∃ format ∈ searchFormats testMime { request with Partial := "menu" },
      findTemplate testMime (testViews testTree ["", "plugin"]) { request with Partial := "menu" } =
        .ok ("application/_menu.html.tpl", format) :=
  unique_candidate_found testMime (testViews testTree ["", "plugin"])
    { request with Partial := "menu" } "application/_menu.html.tpl"
    (by decide) (by decide)
    ⟨⟨"html", "application", "", ""⟩, by decide, by decide, by decide⟩
    (by
      have h : ∀ t ∈ templateSpace testMime (testViews testTree ["", "plugin"])
          { request with Partial := "menu" },
          ∀ g ∈ matchesOf (testViews testTree ["", "plugin"]) (templatePattern "_menu" t),
            registered (testViews testTree ["", "plugin"]) g = true →
              g = "application/_menu.html.tpl" := by decide
      exact fun t ht g hg hr => h t ht g hg hr)

/-- C5 (as stated) fails: `application/index.html.tpl` is the only file of
the tree, it is registered and matches a pattern of the search space, but the
first pattern tried, `application/index.html+[.*`, is malformed and
`findTemplate` returns the error of `fs.Glob`. -/
theorem unique_candidate_counterexample :
    (⟨"html", "application", "", ""⟩ : Tuple) ∈
      templateSpace testMime (testViews singleTree []) brokenVariantRequest ∧
    Matches (testViews singleTree [])
      (templatePattern (baseName brokenVariantRequest) ⟨"html", "application", "", ""⟩)
      "application/index.html.tpl" ∧
    registered (testViews singleTree []) "application/index.html.tpl" = true ∧
    (∀ t ∈ templateSpace testMime (testViews singleTree []) brokenVariantRequest,
      ∀ g ∈ matchesOf (testViews singleTree [])
          (templatePattern (baseName brokenVariantRequest) t),
        g = "application/index.html.tpl") ∧
    findTemplate testMime (testViews singleTree []) brokenVariantRequest =
      .error "syntax error in pattern" := by
  decide

/-- C6 (as amended): when every pattern of the search space is enumerated by
`fs.Glob` without error and without a registered file, `findTemplate` (for a
request with a non-empty base name) fails with the message
`lazyview: template not found. Tried ` followed by the patterns
`path.Join(spath, dir, filename + ".*")` of the search space in search order,
joined by `, `; `findLayout` does the same over the layout search space with
the message `lazyview: layout not found. Tried: `. -/
theorem not_found_lists_tries (mime : MimeDB) (v : Views) (opts : Options) :
    ((opts.Action ≠ "" ∨ opts.Partial ≠ "") →
      (∀ t ∈ templateSpace mime v opts, Miss v (templatePattern (baseName opts) t)) →
      findTemplate mime v opts =
        .error ("lazyview: template not found. Tried " ++
          stringsJoin ((templateSpace mime v opts).map (templatePattern (baseName opts))) ", ")) ∧
    ((∀ t ∈ layoutSpace v opts, Miss v (layoutPattern opts t)) →
      findLayout v opts =
        .error ("lazyview: layout not found. Tried: " ++
          stringsJoin ((layoutSpace v opts).map (layoutPattern opts)) ", ")) := by
  constructor
  · intro hname hmiss
    have hbase : ¬(opts.Action = "" ∧ opts.Partial = "") := by
      rintro ⟨ha, hp⟩
      rcases hname with h | h
      · exact h ha
      · exact h hp
    rw [findTemplate_eq, if_neg hbase,
      rangeLoop_all_next _ (templatePattern (baseName opts)) _ []
        (fun t ht tr => visit_miss v _ _ (hmiss t ht) tr)]
    rfl
  · intro hmiss
    rw [findLayout_eq,
      rangeLoop_all_next _ (layoutPattern opts) _ []
        (fun t ht tr => visit_miss v _ _ (hmiss t ht) tr)]
    rfl

theorem not_found_lists_tries_witness :
    findTemplate testMime (testViews testTree ["", "plugin"])
        { request with Controller := "posts", Action := "show", Formats := ["xml"] } =
      .error "lazyview: template not found. Tried posts/show.xml.*, plugin/posts/show.xml.*, application/show.xml.*, plugin/application/show.xml.*" ∧
    findLayout (testViews testTree ["", "plugin"])
        { request with Layout := "print", Formats := ["xml"] } =
      .error "lazyview: layout not found. Tried: layouts/print.xml.*, plugin/layouts/print.xml.*" :=
  ⟨(not_found_lists_tries testMime (testViews testTree ["", "plugin"])
      { request with Controller := "posts", Action := "show", Formats := ["xml"] }).1
      (by decide) (by decide),
   (not_found_lists_tries testMime (testViews testTree ["", "plugin"])
      { request with Layout := "print", Formats := ["xml"] }).2 (by decide)⟩

/-- C6 (as stated) fails: no pattern of the search space has a registered
match, but every pattern is malformed (`application/index.html+[.*`, ...), so
`findTemplate` returns the error of `fs.Glob`, which is not the not-found
error listing the patterns. -/
theorem not_found_counterexample :
    (∀ t ∈ templateSpace testMime (testViews testTree [])
        { request with Action := "index", Variants := ["["] },
      matchesOf (testViews testTree []) (templatePattern "index" t) = []) ∧
    findTemplate testMime (testViews testTree [])
        { request with Action := "index", Variants := ["["] } =
      .error "syntax error in pattern" ∧
    findTemplate testMime (testViews testTree [])
        { request with Action := "index", Variants := ["["] } ≠
      .error ("lazyview: template not found. Tried " ++
        stringsJoin ((templateSpace testMime (testViews testTree [])
          { request with Action := "index", Variants := ["["] }).map
            (templatePattern "index")) ", ") := by
  decide

/-! ## The render pipeline -/

/-- C7 (the code at the failing input): the tree holds
`layouts/application.html.tpl`, `findLayout` resolves it for the request and
dispatching it with the binding `Content` succeeds, yet `Render` of the
request with `Content = "hello"` and `UseLayout = true` returns the error
`lazyview: no engine for ""` and writes nothing: it jumps to the label
`RenderLayout` with `layout` still empty and `originalW` still nil. -/
theorem render_content_with_layout_skips_findLayout :
    findLayout (testViews testTree ["", "plugin"])
        { request with Content := "hello", UseLayout := true, Formats := ["html"] } =
      .ok "layouts/application.html.tpl" ∧
    (RenderTemplate testQuote testRun (testViews testTree ["", "plugin"]) 0 0 (some "")
        [("Content", .str "hello")] "layouts/application.html.tpl").err = none ∧
    (Render testMime testQuote testRun (testViews testTree ["", "plugin"]) ⟨0, []⟩
        { request with Content := "hello", UseLayout := true, Formats := ["html"] }).err =
      some "lazyview: no engine for \"\"" ∧
    (Render testMime testQuote testRun (testViews testTree ["", "plugin"]) ⟨0, []⟩
        { request with Content := "hello", UseLayout := true, Formats := ["html"] }).target =
      "" := by
  decide

/-- C8: for a request with empty `Content` and `UseLayout = true`, when
`findTemplate` resolves `(file, format)`, rendering `file` into the reset
scratch buffer with the caller's variables succeeds with output `s`, and
`findLayout` resolves `layout` for the request with `Formats` replaced by
`[format]`, the error `Render` returns, the bytes of the target writer and
the state of the engines are those of dispatching `layout` to the target
writer with the bindings `Content = s`. -/
theorem two_pass_render {σ : Type} (mime : MimeDB) (quote : Quote) (run : EngineRender σ) (v : Views)
    (world : World σ) (opts : Options) (file format layout : String)
    (hcontent : opts.Content = "") (huse : opts.UseLayout = true)
    (hfind : findTemplate mime v opts = .ok (file, format))
    (hpass1 : (RenderTemplate quote run v world.engines opts.Ctx (some "") opts.Variables file).err
      = none)
    (hlayout : findLayout v { opts with Formats := [format] } = .ok layout) :
    (Render mime quote run v world opts).err =
      (RenderTemplate quote run v
        (RenderTemplate quote run v world.engines opts.Ctx (some "") opts.Variables file).state
        opts.Ctx (some opts.Writer)
        [("Content", .str
          ((RenderTemplate quote run v world.engines opts.Ctx (some "") opts.Variables file).w.getD ""))]
        layout).err ∧
    (Render mime quote run v world opts).target =
      (RenderTemplate quote run v
        (RenderTemplate quote run v world.engines opts.Ctx (some "") opts.Variables file).state
        opts.Ctx (some opts.Writer)
        [("Content", .str
          ((RenderTemplate quote run v world.engines opts.Ctx (some "") opts.Variables file).w.getD ""))]
        layout).w.getD opts.Writer ∧
    (Render mime quote run v world opts).world.engines =
      (RenderTemplate quote run v
        (RenderTemplate quote run v world.engines opts.Ctx (some "") opts.Variables file).state
        opts.Ctx (some opts.Writer)
        [("Content", .str
          ((RenderTemplate quote run v world.engines opts.Ctx (some "") opts.Variables file).w.getD ""))]
        layout).state := by
  unfold Render
  simp only [hcontent, huse] at hlayout
  simp only [hcontent, huse, hfind, bufferReset, hpass1, hlayout]
  simp

theorem two_pass_render_witness :
    (Render testMime testQuote testRun (testViews testTree ["", "plugin"]) ⟨0, ["stale"]⟩
      { request with Controller := "secret", Action := "index", Layout := "super",
                     UseLayout := true }).target =
      "layouts/super.html.tpl application/index.html.tpl" :=
  (two_pass_render testMime testQuote testRun (testViews testTree ["", "plugin"]) ⟨0, ["stale"]⟩
    { request with Controller := "secret", Action := "index", Layout := "super",
                   UseLayout := true }
    "application/index.html.tpl" "html" "layouts/super.html.tpl"
    rfl rfl (by decide) (by decide) (by decide)).2.1

/-- C9: for a request with empty `Content` and `UseLayout = true`, if
`findTemplate` fails with `e`, or it resolves a file whose rendering into the
scratch buffer fails with `e`, or that rendering succeeds and `findLayout`
(for the resolved format) fails with `e`, then `Render` returns `e` and the
target writer holds exactly the bytes it held before. -/
theorem two_pass_failure_writes_nothing {σ : Type} (mime : MimeDB) (quote : Quote) (run : EngineRender σ)
    (v : Views) (world : World σ) (opts : Options) (e : Error)
    (hcontent : opts.Content = "") (huse : opts.UseLayout = true)
    (hfail : findTemplate mime v opts = .error e ∨
      (∃ file format, findTemplate mime v opts = .ok (file, format) ∧
        (RenderTemplate quote run v world.engines opts.Ctx (some "") opts.Variables file).err =
          some e) ∨
      (∃ file format, findTemplate mime v opts = .ok (file, format) ∧
        (RenderTemplate quote run v world.engines opts.Ctx (some "") opts.Variables file).err =
          none ∧
        findLayout v { opts with Formats := [format] } = .error e)) :
    (Render mime quote run v world opts).err = some e ∧
    (Render mime quote run v world opts).target = opts.Writer := by
  unfold Render
  rcases hfail with h | ⟨file, format, h, h1⟩ | ⟨file, format, h, h1, h2⟩
  · simp [hcontent, huse, h]
  · simp [hcontent, huse, h, bufferReset, h1]
  · simp only [hcontent, huse] at h2
    simp [hcontent, huse, h, bufferReset, h1, h2]

theorem two_pass_failure_writes_nothing_witness :
    (Render testMime testQuote failingRun (testViews testTree ["", "plugin"]) ⟨0, []⟩
      { request with Action := "index", UseLayout := true, Writer := "sent before" }).err =
      some "template: execution failed" ∧
    (Render testMime testQuote failingRun (testViews testTree ["", "plugin"]) ⟨0, []⟩
      { request with Action := "index", UseLayout := true, Writer := "sent before" }).target =
      "sent before" :=
  two_pass_failure_writes_nothing testMime testQuote failingRun (testViews testTree ["", "plugin"]) ⟨0, []⟩
    { request with Action := "index", UseLayout := true, Writer := "sent before" }
    "template: execution failed" rfl rfl
    (Or.inr (Or.inl ⟨"application/index.html.tpl", "html", by decide, by decide⟩))

/-! ## Layout resolution -/

theorem layoutSpace_eq (v : Views) (opts : Options) :
    layoutSpace v opts = (layoutNames opts).flatMap (layoutBlock v opts) := rfl

theorem rangeLoop_congr {α β : Type} (body1 body2 : α → List String → Loop β)
    (xs : List α) (tries : List String)
    (h : ∀ x ∈ xs, ∀ tr, body1 x tr = body2 x tr) :
    rangeLoop body1 xs tries = rangeLoop body2 xs tries := by
  induction xs generalizing tries with
  | nil => rfl
  | cons x rest ih =>
    simp only [rangeLoop, h x (List.mem_cons_self x rest) tries]
    cases body2 x tries with
    | ret r => rfl
    | next tr1 => exact ih tr1 (fun y hy => h y (List.mem_cons_of_mem x hy))

theorem firstRegistered_congr (v1 v2 : Views) (h : v1.Engines = v2.Engines)
    (files : List String) : firstRegistered v1 files = firstRegistered v2 files := by
  induction files with
  | nil => rfl
  | cons file rest ih => simp only [firstRegistered, h, ih]

theorem visit_congr {β : Type} (v1 v2 : Views) (pattern : String) (found : String → β)
    (tries : List String) (he : v1.Engines = v2.Engines)
    (hg : v1.FS.Glob pattern = v2.FS.Glob pattern) :
    visit v1 pattern found tries = visit v2 pattern found tries := by
  unfold visit
  rw [hg]
  cases v2.FS.Glob pattern with
  | error e => rfl
  | ok files => simp only [firstRegistered_congr v1 v2 he]

/-- Where a file returned by `findLayout` comes from: a tuple of the layout
search space that is a hit with that file. -/
theorem findLayout_ok_origin (v : Views) (opts : Options) (file : String)
    (h : findLayout v opts = .ok file) :
    ∃ t ∈ layoutSpace v opts, Hit v (layoutPattern opts t) file := by
  rw [findLayout_eq] at h
  cases hl : rangeLoop (fun t => visit v (layoutPattern opts t) (fun file => file))
      (layoutSpace v opts) [] with
  | next tries =>
    rw [hl] at h
    cases h
  | ret r =>
    rw [hl] at h
    simp only [finish] at h
    subst h
    obtain ⟨pre, t, post, tr, hsplit, hx, _⟩ := rangeLoop_ret_split _ _ _ _ hl
    obtain ⟨file0, hhit, hr⟩ := visit_ret_ok v _ _ _ _ hx
    subst hr
    exact ⟨t, by rw [hsplit]; simp, hhit⟩

theorem layoutBlock_layout (v : Views) (opts : Options) (layout : String) :
    ∀ u ∈ layoutBlock v opts layout, u.layout = layout := by
  intro u hu
  simp only [layoutBlock, List.mem_flatMap, List.mem_map] at hu
  obtain ⟨_, _, _, _, _, _, rfl⟩ := hu
  rfl

/-- C10 (as amended): `findLayout` searches the tuples of the layout names
(`[Layout]` when the override is set, otherwise the controller when set and
then `application`), each with the namespace scopes (the namespace when set,
then the root), the variants and the search paths, in that nesting order:
when every tuple before a tuple is enumerated by `fs.Glob` without error and
without a registered file, and the tuple itself is enumerated without error
with `file` its first registered file, `findLayout` returns `file`.  With an
override, a returned file is the first registered file of a pattern built
with the override as layout name (for a scope, variant and search path of
the request), and the result of `findLayout` is the same for every
filesystem that answers these patterns alike (the engines and search paths
being the same).  Without an override and with a controller, when some
pattern built with the controller as layout name in the root is matched by a
registered file and `fs.Glob` fails on no pattern built with the controller
as layout name (for the scopes, variants and search paths of the request),
`findLayout` returns the first registered file of such a pattern. -/
theorem findLayout_first_match (v : Views) (opts : Options) :
    (∀ (pre post : List LayoutTuple) (t : LayoutTuple) (file : String),
      layoutSpace v opts = pre ++ t :: post →
      (∀ u ∈ pre, Miss v (layoutPattern opts u)) →
      Hit v (layoutPattern opts t) file →
      findLayout v opts = .ok file) ∧
    (opts.Layout ≠ "" →
      (∀ file, findLayout v opts = .ok file →
        ∃ dir ∈ layoutScopes opts, ∃ variant ∈ searchVariants opts, ∃ spath ∈ searchPaths v,
          Hit v (layoutPattern opts ⟨opts.Layout, dir, variant, spath⟩) file) ∧
      (∀ v1 : Views, v1.Engines = v.Engines → v1.SearchPaths = v.SearchPaths →
        (∀ dir ∈ layoutScopes opts, ∀ variant ∈ searchVariants opts, ∀ spath ∈ searchPaths v,
          v1.FS.Glob (layoutPattern opts ⟨opts.Layout, dir, variant, spath⟩) =
            v.FS.Glob (layoutPattern opts ⟨opts.Layout, dir, variant, spath⟩)) →
        findLayout v1 opts = findLayout v opts)) ∧
    (opts.Layout = "" → opts.Controller ≠ "" →
      ∀ (variant spath file0 : String),
        variant ∈ searchVariants opts → spath ∈ searchPaths v →
        Matches v (layoutPattern opts ⟨opts.Controller, "", variant, spath⟩) file0 →
        registered v file0 = true →
        (∀ dir ∈ layoutScopes opts, ∀ vr ∈ searchVariants opts, ∀ p ∈ searchPaths v,
          GlobOk v (layoutPattern opts ⟨opts.Controller, dir, vr, p⟩)) →
        ∃ dir ∈ layoutScopes opts, ∃ vr ∈ searchVariants opts, ∃ p ∈ searchPaths v, ∃ file,
          findLayout v opts = .ok file ∧
          Hit v (layoutPattern opts ⟨opts.Controller, dir, vr, p⟩) file) := by
  have hblock : ∀ (layout : String) (t : LayoutTuple), t ∈ layoutBlock v opts layout →
      t.layout = layout ∧ t.dir ∈ layoutScopes opts ∧ t.variant ∈ searchVariants opts ∧
        t.spath ∈ searchPaths v := by
    intro layout t ht
    simp only [layoutBlock, List.mem_flatMap, List.mem_map] at ht
    obtain ⟨d, hd, vr, hvr, p, hp, rfl⟩ := ht
    exact ⟨rfl, hd, hvr, hp⟩
  refine ⟨?_, ?_, ?_⟩
  · intro pre post t file hspace hpre hhit
    rw [findLayout_eq, hspace,
      rangeLoop_first_ret _ (layoutPattern opts) pre post t (.ok file) []
        (fun u hu tr => visit_miss v _ _ (hpre u hu) tr)
        (fun tr => visit_hit v _ file _ hhit tr)]
    rfl
  · intro hl
    have hspace : layoutSpace v opts = layoutBlock v opts opts.Layout := by
      rw [layoutSpace_eq]
      simp [layoutNames, hl]
    constructor
    · intro file hres
      obtain ⟨t, ht, hhit⟩ := findLayout_ok_origin v opts file hres
      rw [hspace] at ht
      obtain ⟨hlay, hd, hvr, hp⟩ := hblock opts.Layout t ht
      refine ⟨t.dir, hd, t.variant, hvr, t.spath, hp, ?_⟩
      rw [← hlay]
      exact hhit
    · intro v1 he hs hglob
      rw [findLayout_eq, findLayout_eq]
      have hsame : layoutSpace v1 opts = layoutSpace v opts := by
        simp only [layoutSpace, searchPaths, hs]
      rw [hsame]
      congr 1
      apply rangeLoop_congr
      intro t ht tr
      rw [hspace] at ht
      obtain ⟨hlay, hd, hvr, hp⟩ := hblock opts.Layout t ht
      apply visit_congr v1 v _ _ _ he
      have := hglob t.dir hd t.variant hvr t.spath hp
      rw [← hlay] at this
      exact this
  · intro hl hc variant spath file0 hvr hp hmatch hreg hok
    have hspace : layoutSpace v opts =
        layoutBlock v opts opts.Controller ++ layoutBlock v opts "application" := by
      rw [layoutSpace_eq]
      simp [layoutNames, hl, hc]
    have hu : (⟨opts.Controller, "", variant, spath⟩ : LayoutTuple) ∈
        layoutBlock v opts opts.Controller := by
      simp only [layoutBlock, layoutScopes, List.mem_flatMap, List.mem_map]
      exact ⟨"", by simp, variant, hvr, spath, hp, rfl⟩
    have hokb : ∀ t ∈ layoutBlock v opts opts.Controller, GlobOk v (layoutPattern opts t) := by
      intro t ht
      obtain ⟨hlay, hd, hvr1, hp1⟩ := hblock opts.Controller t ht
      have := hok t.dir hd t.variant hvr1 t.spath hp1
      rw [← hlay] at this
      exact this
    obtain ⟨pre, t, post, file, hsplit, hpre, hhit⟩ :=
      first_hit_split v (layoutPattern opts) (layoutBlock v opts opts.Controller) hokb
        ⟨_, hu, file0, hmatch, hreg⟩
    obtain ⟨hlay, hd, hvr1, hp1⟩ := hblock opts.Controller t (by rw [hsplit]; simp)
    refine ⟨t.dir, hd, t.variant, hvr1, t.spath, hp1, file, ?_, ?_⟩
    · rw [findLayout_eq, hspace, hsplit, List.append_assoc, List.cons_append,
        rangeLoop_first_ret _ (layoutPattern opts) pre (post ++ layoutBlock v opts "application")
          t (.ok file) []
          (fun u hu tr => visit_miss v _ _ (hpre u hu) tr)
          (fun tr => visit_hit v _ file _ hhit tr)]
      rfl
    · rw [← hlay]
      exact hhit

theorem findLayout_first_match_witness :
    findLayout (testViews testTree ["", "plugin"])
        { request with Controller := "secret", Formats := ["html"] } =
      .ok "plugin/layouts/secret.html.tpl" ∧
    (∃ dir ∈ layoutScopes { request with Controller := "secret", Layout := "super",
                                         Formats := ["html"] },
      ∃ variant ∈ [""], ∃ spath ∈ ["", "plugin"],
        Hit (testViews testTree ["", "plugin"])
          (layoutPattern { request with Controller := "secret", Layout := "super",
                                        Formats := ["html"] }
            ⟨"super", dir, variant, spath⟩) "layouts/super.html.tpl") ∧
    (∃ dir ∈ layoutScopes { request with Namespace := "admin", Controller := "posts",
                                         Formats := ["html"] },
      ∃ vr ∈ [""], ∃ p ∈ ["", "plugin"], ∃ file,
        findLayout (testViews testTree ["", "plugin"])
            { request with Namespace := "admin", Controller := "posts", Formats := ["html"] } =
          .ok file ∧
        Hit (testViews testTree ["", "plugin"])
          (layoutPattern { request with Namespace := "admin", Controller := "posts",
                                        Formats := ["html"] }
            ⟨"posts", dir, vr, p⟩) file) :=
  ⟨(findLayout_first_match (testViews testTree ["", "plugin"])
      { request with Controller := "secret", Formats := ["html"] }).1
      [⟨"secret", "", "", ""⟩]
      [⟨"application", "", "", ""⟩, ⟨"application", "", "", "plugin"⟩]
      ⟨"secret", "", "", "plugin"⟩ "plugin/layouts/secret.html.tpl"
      (by decide) (by decide) (by decide),
   ((findLayout_first_match (testViews testTree ["", "plugin"])
      { request with Controller := "secret", Layout := "super", Formats := ["html"] }).2.1
      (by decide)).1 "layouts/super.html.tpl" (by decide),
   (findLayout_first_match (testViews testTree ["", "plugin"])
      { request with Namespace := "admin", Controller := "posts", Formats := ["html"] }).2.2
      rfl (by decide) "" "" "layouts/posts.html.tpl" (by decide) (by decide) (by decide)
      (by decide) (by decide)⟩

/-- C10 (as stated) fails: the first registered match in the order of the
search space is `layouts/application.html.tpl`, at the second tuple, the
first tuple matching no file; but the pattern of the first tuple,
`layouts/application.html+[.*`, is malformed and `findLayout` returns the
error of `fs.Glob`. -/
theorem findLayout_first_match_counterexample :
    layoutSpace (testViews testTree [])
        { request with Variants := ["[", ""], Formats := ["html"] } =
      [⟨"application", "", "[", ""⟩, ⟨"application", "", "", ""⟩] ∧
    matchesOf (testViews testTree [])
      (layoutPattern { request with Variants := ["[", ""], Formats := ["html"] }
        ⟨"application", "", "[", ""⟩) = [] ∧
    Hit (testViews testTree [])
      (layoutPattern { request with Variants := ["[", ""], Formats := ["html"] }
        ⟨"application", "", "", ""⟩) "layouts/application.html.tpl" ∧
    findLayout (testViews testTree [])
        { request with Variants := ["[", ""], Formats := ["html"] } =
      .error "syntax error in pattern" := by
  decide

/-! ## Layout format, invalid requests, action and partial -/

theorem underscore_append_ne_empty (p : String) : "_" ++ p ≠ "" := by
  intro h
  have hd := congrArg String.data h
  simp [String.data_append] at hd

/-- C11 (as amended): for a request with empty `Content` and `UseLayout = true`
whose template resolved to `(file, format)` and rendered into the scratch
buffer without error, `findLayout` is asked with `Formats = [format]`: every
pattern it tries is `path.Join(spath, "layouts", dir, name.format(+variant).*)`
with that one format, whatever `Formats` the caller gave; and when each of
these patterns is enumerated by `fs.Glob` without error and without a
registered file, `Render` returns the layout-not-found error listing them
and writes nothing to the target writer. -/
theorem layout_format_collapse {σ : Type} (mime : MimeDB) (quote : Quote) (run : EngineRender σ) (v : Views)
    (world : World σ) (opts : Options) (file format : String)
    (hcontent : opts.Content = "") (huse : opts.UseLayout = true)
    (hfind : findTemplate mime v opts = .ok (file, format))
    (hpass1 : (RenderTemplate quote run v world.engines opts.Ctx (some "") opts.Variables file).err
      = none)
    (hmiss : ∀ t ∈ layoutSpace v opts,
      Miss v (layoutPattern { opts with Formats := [format] } t)) :
    (∀ t : LayoutTuple, layoutPattern { opts with Formats := [format] } t =
      pathJoin [t.spath, "layouts", t.dir,
        (if t.variant ≠ "" then t.layout ++ "." ++ format ++ "+" ++ t.variant
          else t.layout ++ "." ++ format) ++ ".*"]) ∧
    (Render mime quote run v world opts).err =
      some ("lazyview: layout not found. Tried: " ++
        stringsJoin ((layoutSpace v opts).map
          (layoutPattern { opts with Formats := [format] })) ", ") ∧
    (Render mime quote run v world opts).target = opts.Writer := by
  have hl : findLayout v { opts with Formats := [format] } =
      .error ("lazyview: layout not found. Tried: " ++
        stringsJoin ((layoutSpace v opts).map
          (layoutPattern { opts with Formats := [format] })) ", ") := by
    rw [findLayout_eq]
    have hsp : layoutSpace v { opts with Formats := [format] } = layoutSpace v opts := rfl
    rw [hsp, rangeLoop_all_next _ (layoutPattern { opts with Formats := [format] }) _ []
      (fun t ht tr => visit_miss v _ _ (hmiss t ht) tr)]
    rfl
  refine ⟨fun t => rfl, ?_, ?_⟩
  · unfold Render
    simp only [hcontent, huse] at hl
    simp [hcontent, huse, hfind, bufferReset, hpass1, hl]
  · unfold Render
    simp only [hcontent, huse] at hl
    simp [hcontent, huse, hfind, bufferReset, hpass1, hl]

theorem layout_format_collapse_witness :
    (Render testMime testQuote testRun (testViews testTree ["", "plugin"]) ⟨0, []⟩
      { request with Controller := "posts", Action := "index", Formats := ["json", "html"],
                     UseLayout := true }).err =
      some "lazyview: layout not found. Tried: layouts/posts.json.*, plugin/layouts/posts.json.*, layouts/application.json.*, plugin/layouts/application.json.*" :=
  (layout_format_collapse testMime testQuote testRun (testViews testTree ["", "plugin"]) ⟨0, []⟩
    { request with Controller := "posts", Action := "index", Formats := ["json", "html"],
                   UseLayout := true }
    "posts/index.json.tpl" "json" rfl rfl (by decide) (by decide) (by decide)).2.1

/-- C11 (as stated) fails: the template resolves to the format `html` and
renders, no file matches any layout pattern, yet `Render` does not return
the layout-not-found error: the override `[` makes the first layout pattern
`layouts/[.html.*` malformed and the error of `fs.Glob` is returned. -/
theorem layout_format_collapse_counterexample :
    findTemplate testMime (testViews testTree [])
        { request with Action := "index", Layout := "[", UseLayout := true } =
      .ok ("application/index.html.tpl", "html") ∧
    (RenderTemplate testQuote testRun (testViews testTree []) 0 0 (some "") []
      "application/index.html.tpl").err = none ∧
    (∀ t ∈ layoutSpace (testViews testTree [])
        { request with Action := "index", Layout := "[", UseLayout := true },
      matchesOf (testViews testTree [])
        (layoutPattern { request with Action := "index", Layout := "[", UseLayout := true,
                                      Formats := ["html"] } t) = []) ∧
    (Render testMime testQuote testRun (testViews testTree []) ⟨0, []⟩
      { request with Action := "index", Layout := "[", UseLayout := true }).err =
      some "syntax error in pattern" := by
  decide

/-- C12: for a request with empty `Content`, `Action` and `Partial`,
`findTemplate` fails with `lazyview: no action or partial defined` and
`Render` returns that error, leaving the world and the target writer as they
were, for every MIME table, engine behaviour, filesystem, engine map and
search-path list. -/
theorem invalid_request_fails_fast {σ : Type} (mime : MimeDB) (quote : Quote) (run : EngineRender σ)
    (v : Views) (world : World σ) (opts : Options)
    (hcontent : opts.Content = "") (haction : opts.Action = "") (hpart : opts.Partial = "") :
    findTemplate mime v opts = .error "lazyview: no action or partial defined" ∧
    (Render mime quote run v world opts).err = some "lazyview: no action or partial defined" ∧
    (Render mime quote run v world opts).target = opts.Writer ∧
    (Render mime quote run v world opts).world.engines = world.engines ∧
    (Render mime quote run v world opts).world.pool = world.pool := by
  have hf : findTemplate mime v opts = .error "lazyview: no action or partial defined" := by
    unfold findTemplate
    simp [haction, hpart]
  refine ⟨hf, ?_, ?_, ?_, ?_⟩ <;>
  · unfold Render
    simp [hcontent, hf]

theorem invalid_request_fails_fast_witness :
    (Render testMime testQuote testRun (testViews testTree ["", "plugin"]) ⟨0, []⟩
      { request with Controller := "posts", UseLayout := true, Writer := "sent before" }).target =
      "sent before" :=
  (invalid_request_fails_fast testMime testQuote testRun (testViews testTree ["", "plugin"]) ⟨0, []⟩
    { request with Controller := "posts", UseLayout := true, Writer := "sent before" }
    rfl rfl rfl).2.2.1

/-- C13: with a non-empty `Action`, `findTemplate` gives the same result for
every value of `Partial`; with an empty `Action` and a non-empty `Partial`
it gives the result of the same request with `Action` set to `_` followed by
the partial. -/
theorem action_precedence (mime : MimeDB) (v : Views) (opts : Options) :
    (opts.Action ≠ "" → ∀ p : String,
      findTemplate mime v { opts with Partial := p } = findTemplate mime v opts) ∧
    (opts.Action = "" → opts.Partial ≠ "" →
      findTemplate mime v { opts with Action := "_" ++ opts.Partial } =
        findTemplate mime v opts) := by
  constructor
  · intro ha p
    unfold findTemplate
    simp [ha]
  · intro ha hp
    unfold findTemplate
    simp [ha, hp, underscore_append_ne_empty]

theorem action_precedence_witness :
    findTemplate testMime (testViews testTree ["", "plugin"])
        { request with Action := "_menu" } =
      findTemplate testMime (testViews testTree ["", "plugin"]) { request with Partial := "menu" } :=
  (action_precedence testMime (testViews testTree ["", "plugin"])
    { request with Partial := "menu" }).2 rfl (by decide)

/-! ## Engine dispatch -/

/-- The scan of `filepath.Ext` in closed form: with `seg` the part of the
last path element it visits (up to the last `/`), the result is the text from
the final dot of `seg` on, or nothing when `seg` has no dot. -/
theorem extScan_eq (rev acc : List Char) :
    extScan rev acc =
      if '.' ∈ rev.takeWhile (fun c => c ≠ '/') then
        '.' :: (((rev.takeWhile fun c => c ≠ '/').takeWhile fun c => c ≠ '.').reverse ++ acc)
      else [] := by
  induction rev generalizing acc with
  | nil => simp [extScan]
  | cons c rest ih =>
    unfold extScan
    by_cases hs : c = '/'
    · subst hs
      simp
    · by_cases hd : c = '.'
      · subst hd
        simp
      · have hcons : (c :: rest).takeWhile (fun c => decide (c ≠ '/')) =
            c :: rest.takeWhile (fun c => decide (c ≠ '/')) :=
          List.takeWhile_cons_of_pos (by simpa using hs)
        have hmem : '.' ∈ c :: rest.takeWhile (fun c => decide (c ≠ '/')) ↔
            '.' ∈ rest.takeWhile (fun c => decide (c ≠ '/')) := by
          constructor
          · intro h
            rcases List.mem_cons.mp h with h | h
            · exact absurd h.symm hd
            · exact h
          · exact List.mem_cons_of_mem _
        simp only [hs, hd, if_false]
        rw [ih (c :: acc), hcons]
        by_cases hm : '.' ∈ rest.takeWhile (fun c => decide (c ≠ '/'))
        · rw [if_pos hm, if_pos (hmem.mpr hm),
            List.takeWhile_cons_of_pos (by simpa using hd)]
          simp
        · rw [if_neg hm, if_neg (fun h => hm (hmem.mp h))]

/-- The extension `RenderTemplate` looks up, for every path. -/
theorem ext_eq_extensionOf (file : String) :
    trimDot (filepathExt file) = extensionOf file := by
  unfold filepathExt extensionOf lastElement afterFinalDot
  rw [extScan_eq]
  by_cases hm : '.' ∈ file.data.reverse.takeWhile (fun c => c ≠ '/')
  · rw [if_pos hm]
    have hm1 : '.' ∈
        (String.mk (file.data.reverse.takeWhile fun c => c ≠ '/').reverse).data := by
      simpa using hm
    rw [if_pos hm1]
    simp [trimDot]
  · rw [if_neg hm]
    have hm1 : ¬ '.' ∈
        (String.mk (file.data.reverse.takeWhile fun c => c ≠ '/').reverse).data := by
      simpa using hm
    rw [if_neg hm1]
    rfl

/-- C14 (as amended): for every file path, `RenderTemplate` looks up the
engine under the extension of the last path element: the text after the
final dot of the part of the path that follows its last `/`, or the empty
string when that part has no dot.  When that extension is not a key of
`Engines` it returns the error `lazyview: no engine for` followed by the
extension as `%q` prints it, with the state of the engines and the writer
untouched; otherwise it returns exactly what the `Render` method of the
engine found returns for the same context, views, writer, variables and
file.  For a path with a dot in its last element the extension is the text
after the final dot of the whole path. -/
theorem engine_dispatch {σ : Type} (quote : Quote) (run : EngineRender σ) (v : Views) (st : σ)
    (ctx : Context) (w : Option Writer) (vars : Vars) (file : String) :
    (v.Engines (extensionOf file) = none →
      RenderTemplate quote run v st ctx w vars file =
        ⟨st, w, some ("lazyview: no engine for " ++ quote (extensionOf file))⟩) ∧
    (∀ engine, v.Engines (extensionOf file) = some engine →
      RenderTemplate quote run v st ctx w vars file = run engine st ctx v w vars file) ∧
    ('.' ∈ (lastElement file).data → extensionOf file = afterFinalDot file) ∧
    ('.' ∉ (lastElement file).data → extensionOf file = "") := by
  have hext := ext_eq_extensionOf file
  refine ⟨?_, ?_, ?_, ?_⟩
  · intro hnone
    unfold RenderTemplate
    simp only [hext, hnone]
  · intro engine hsome
    unfold RenderTemplate
    simp only [hext, hsome]
  · intro hdot
    have hseg : '.' ∈ file.data.reverse.takeWhile (fun c => c ≠ '/') := by
      simpa [lastElement] using hdot
    have htw : ∀ rev : List Char, '.' ∈ rev.takeWhile (fun c => c ≠ '/') →
        (rev.takeWhile fun c => c ≠ '/').takeWhile (fun c => c ≠ '.') =
          rev.takeWhile (fun c => c ≠ '.') := by
      intro rev
      induction rev with
      | nil => simp
      | cons c rest ih =>
        intro h
        by_cases hs : c = '/'
        · subst hs
          simp at h
        · rw [List.takeWhile_cons_of_pos (by simpa using hs)] at h ⊢
          by_cases hd : c = '.'
          · subst hd
            simp
          · have h1 : '.' ∈ rest.takeWhile (fun c => decide (c ≠ '/')) := by
              rcases List.mem_cons.mp h with h | h
              · exact absurd h.symm hd
              · exact h
            rw [List.takeWhile_cons_of_pos (by simpa using hd),
              List.takeWhile_cons_of_pos (by simpa using hd), ih h1]
    unfold extensionOf
    rw [if_pos hdot]
    unfold afterFinalDot lastElement
    simp only [List.reverse_reverse]
    rw [htw file.data.reverse hseg]
  · intro hdot
    unfold extensionOf
    rw [if_neg hdot]

theorem engine_dispatch_witness :
    RenderTemplate testQuote testRun (testViews testTree []) 0 0 (some "") [] "posts/index.txt" =
      testRun 0 0 0 (testViews testTree []) (some "") [] "posts/index.txt" :=
  (engine_dispatch testQuote testRun (testViews testTree []) 0 0 (some "") []
    "posts/index.txt").2.1 0 (by decide)

/-- C14 (as stated) fails: the path `posts.d/index` contains a dot, the text
after its final dot is `d/index`, which is a key of `Engines`, yet
`RenderTemplate` looks up the empty extension (`filepath.Ext` stops at the
last `/`) and returns the no-engine error. -/
theorem engine_dispatch_counterexample :
    '.' ∈ ("posts.d/index" : String).data ∧
    afterFinalDot "posts.d/index" = "d/index" ∧
    dirDotViews.Engines "d/index" = some 0 ∧
    trimDot (filepathExt "posts.d/index") = "" ∧
    (RenderTemplate testQuote testRun dirDotViews 0 0 (some "") [] "posts.d/index").err =
      some "lazyview: no engine for \"\"" ∧
    (RenderTemplate testQuote testRun dirDotViews 0 0 (some "") [] "posts.d/index").w =
      some "" := by
  decide

/-! ## Variants, file names and the scratch buffer -/

/-- C19 (the code at the failing input): for the empty format carried over
from the content pass, `findTemplate` builds the file name `application`
(pattern `layouts/application.*` for that base name and directory) while
`findLayout` builds `application.` (pattern `layouts/application..*`); the
request with `Formats = [""]` resolves its template to the empty format and
then fails to find the layout `layouts/application.html.tpl`, which the
pattern of the template rule matches. -/
theorem layout_file_name_keeps_empty_format :
    templatePattern "application" ⟨"", "layouts", "", ""⟩ = "layouts/application.*" ∧
    layoutPattern { request with Formats := [""] } ⟨"application", "", "", ""⟩ =
      "layouts/application..*" ∧
    Hit (testViews testTree []) "layouts/application.*" "layouts/application.html.tpl" ∧
    findTemplate testMime (testViews testTree [])
        { request with Action := "index", Formats := [""], UseLayout := true } =
      .ok ("application/index.html.tpl", "") ∧
    (Render testMime testQuote testRun (testViews testTree []) ⟨0, []⟩
      { request with Action := "index", Formats := [""], UseLayout := true }).err =
      some "lazyview: layout not found. Tried: layouts/application..*" := by
  decide

/-- C20: the error `Render` returns, the bytes of the target writer and the
state of the engines are the same for every content of the buffer pool; and
in a two-pass render that succeeds up to the layout, the `Content` binding
handed to the layout is the content of the scratch buffer after the engine
rendered the template into it from empty. -/
theorem no_buffer_leak {σ : Type} (mime : MimeDB) (quote : Quote) (run : EngineRender σ) (v : Views)
    (engines : σ) (pool1 pool2 : List String) (opts : Options) :
    (Render mime quote run v ⟨engines, pool1⟩ opts).err =
      (Render mime quote run v ⟨engines, pool2⟩ opts).err ∧
    (Render mime quote run v ⟨engines, pool1⟩ opts).target =
      (Render mime quote run v ⟨engines, pool2⟩ opts).target ∧
    (Render mime quote run v ⟨engines, pool1⟩ opts).world.engines =
      (Render mime quote run v ⟨engines, pool2⟩ opts).world.engines ∧
    (∀ file format layout, opts.Content = "" → opts.UseLayout = true →
      findTemplate mime v opts = .ok (file, format) →
      (RenderTemplate quote run v engines opts.Ctx (some "") opts.Variables file).err = none →
      findLayout v { opts with Formats := [format] } = .ok layout →
      (Render mime quote run v ⟨engines, pool1⟩ opts).target =
        (RenderTemplate quote run v
          (RenderTemplate quote run v engines opts.Ctx (some "") opts.Variables file).state
          opts.Ctx (some opts.Writer)
          [("Content", .str
            ((RenderTemplate quote run v engines opts.Ctx (some "") opts.Variables file).w.getD ""))]
          layout).w.getD opts.Writer) := by
  refine ⟨?_, ?_, ?_, ?_⟩
  · unfold Render
    simp only [bufferReset]
    repeat' (first | rfl | split)
  · unfold Render
    simp only [bufferReset]
    repeat' (first | rfl | split)
  · unfold Render
    simp only [bufferReset]
    repeat' (first | rfl | split)
  · intro file format layout hcontent huse hfind hpass1 hlayout
    unfold Render
    simp only [hcontent, huse] at hlayout
    simp [hcontent, huse, hfind, bufferReset, hpass1, hlayout]

theorem no_buffer_leak_witness :
    (Render testMime testQuote testRun (testViews testTree ["", "plugin"])
      ⟨0, ["bytes of an earlier render"]⟩
      { request with Controller := "posts", Action := "index", UseLayout := true }).target =
      "layouts/posts.html.tpl posts/index.html.tpl" :=
  ((no_buffer_leak testMime testQuote testRun (testViews testTree ["", "plugin"]) 0
      ["bytes of an earlier render"] []
      { request with Controller := "posts", Action := "index", UseLayout := true }).2.2.2
    "posts/index.html.tpl" "html" "layouts/posts.html.tpl" rfl rfl
    (by decide) (by decide) (by decide)).trans (by decide)

/-! ## The compiled-template cache -/

/-- C15 (the code at the failing input): `Engine.Render` of a path that is
not cached and that `Open` refuses does not return the error: `genTemplate`
unlocks the mutex and then runs the deferred `Unlock` on the unlocked mutex,
which ends the program with a fatal error. -/
theorem tpl_render_open_failure_is_fatal :
    tpl.newEngine.lookup "missing.tpl" = none ∧
    ((tpl.memViews tpl.memFiles).FS.Open "missing.tpl").toOption.isNone = true ∧
    (tpl.Render tpl.testLib tpl.newEngine 0 (tpl.memViews tpl.memFiles) (some "") []
      "missing.tpl").fatalMsg = some "sync: Unlock of unlocked RWMutex" ∧
    (tpl.Render tpl.testLib tpl.newEngine 0 (tpl.memViews tpl.memFiles) (some "") []
      "missing.tpl").result?.isNone = true := by
  decide

/-- What `genTemplate` does on an engine whose mutex is free, by the exit it
takes. -/
theorem tpl_genTemplate_exits {τ : Type} (lib : tpl.TemplateLib τ) (e : tpl.Engine τ)
    (views : Views) (file : String) (hfree : e.tplsL = ⟨false, 0⟩) :
    (∀ err, views.FS.Open file = .error err →
      tpl.genTemplate lib e views file = .fatal "sync: Unlock of unlocked RWMutex") ∧
    (∀ f err, views.FS.Open file = .ok f → f.ReadAll = .error err →
      tpl.genTemplate lib e views file = .returned (e, .error err)) ∧
    (∀ f data err, views.FS.Open file = .ok f → f.ReadAll = .ok data →
      lib.Parse file (tpl.missingKeyOption e.MissingKey) data = .error err →
      tpl.genTemplate lib e views file = .returned (e, .error err)) ∧
    (∀ f data t, views.FS.Open file = .ok f → f.ReadAll = .ok data →
      lib.Parse file (tpl.missingKeyOption e.MissingKey) data = .ok t →
      tpl.genTemplate lib e views file = .returned (e.store file t, .ok t)) := by
  obtain ⟨l, policy, tpls⟩ := e
  simp only at hfree
  subst hfree
  refine ⟨?_, ?_, ?_, ?_⟩
  · intro err ho
    simp [tpl.genTemplate, bind, tpl.Outcome.bind, tpl.RWMutex.Lock, tpl.RWMutex.Unlock, ho]
  · intro f err ho hr
    simp [tpl.genTemplate, bind, tpl.Outcome.bind, tpl.RWMutex.Lock, tpl.RWMutex.Unlock, ho, hr,
      pure]
  · intro f data err ho hr hp
    simp only [tpl.missingKeyOption] at hp
    simp [tpl.genTemplate, bind, tpl.Outcome.bind, tpl.RWMutex.Lock, tpl.RWMutex.Unlock, ho, hr,
      hp, pure]
  · intro f data t ho hr hp
    simp only [tpl.missingKeyOption] at hp
    simp only [tpl.genTemplate, bind, tpl.Outcome.bind, tpl.RWMutex.Lock, tpl.RWMutex.Unlock, ho,
      hr, hp, pure, tpl.Engine.store, tpl.Engine.lookup]
    cases tpls <;> simp

/-- A `Render` of a cached path on an engine whose mutex is free executes
the cached template and leaves the engine as it was. -/
theorem tpl_render_cached {τ : Type} (lib : tpl.TemplateLib τ) (e : tpl.Engine τ)
    (ctx : Context) (views : Views) (w : Option Writer) (vars : Vars) (file : String) (t : τ)
    (hfree : e.tplsL = ⟨false, 0⟩) (hcached : e.lookup file = some t) :
    tpl.Render lib e ctx views w vars file =
      .returned ⟨e, (lib.Execute t w vars).1, (lib.Execute t w vars).2⟩ := by
  obtain ⟨l, policy, tpls⟩ := e
  simp only at hfree
  subst hfree
  have hl : (tpl.Engine.mk ⟨false, 1⟩ policy tpls).lookup file = some t := hcached
  simp [tpl.Render, bind, tpl.Outcome.bind, tpl.RWMutex.RLock, tpl.RWMutex.RUnlock, pure, hl]

/-- A `Render` that returns leaves the mutex free and keeps every entry of
the cache. -/
theorem tpl_render_step {τ : Type} (lib : tpl.TemplateLib τ) (e : tpl.Engine τ) (ctx : Context)
    (views : Views) (w : Option Writer) (vars : Vars) (file : String)
    (r : Rendered (tpl.Engine τ)) (hfree : e.tplsL = ⟨false, 0⟩)
    (h : tpl.Render lib e ctx views w vars file = .returned r) :
    r.state.tplsL = ⟨false, 0⟩ ∧
    ∀ path t, e.lookup path = some t → r.state.lookup path = some t := by
  cases hc : e.lookup file with
  | some t =>
    rw [tpl_render_cached lib e ctx views w vars file t hfree hc] at h
    injection h with h
    subst h
    exact ⟨hfree, fun _ _ hp => hp⟩
  | none =>
    obtain ⟨hopen, hread, hparse, hstore⟩ := tpl_genTemplate_exits lib e views file hfree
    have hrender : tpl.Render lib e ctx views w vars file =
        (tpl.genTemplate lib e views file).bind fun a =>
          match a.2 with
          | .error err => .returned ⟨a.1, w, some err⟩
          | .ok t => .returned ⟨a.1, (lib.Execute t w vars).1, (lib.Execute t w vars).2⟩ := by
      obtain ⟨l, policy, tpls⟩ := e
      simp only at hfree
      subst hfree
      have hl : (tpl.Engine.mk ⟨false, 1⟩ policy tpls).lookup file = none := hc
      simp [tpl.Render, bind, tpl.Outcome.bind, tpl.RWMutex.RLock, tpl.RWMutex.RUnlock, pure, hl]
    rw [hrender] at h
    cases ho : views.FS.Open file with
    | error err =>
      rw [hopen err ho] at h
      simp [tpl.Outcome.bind] at h
    | ok f =>
      cases hr : f.ReadAll with
      | error err =>
        rw [hread f err ho hr] at h
        simp only [tpl.Outcome.bind, tpl.Outcome.returned.injEq] at h
        subst h
        exact ⟨hfree, fun _ _ hp => hp⟩
      | ok data =>
        cases hp : lib.Parse file (tpl.missingKeyOption e.MissingKey) data with
        | error err =>
          rw [hparse f data err ho hr hp] at h
          simp only [tpl.Outcome.bind, tpl.Outcome.returned.injEq] at h
          subst h
          exact ⟨hfree, fun _ _ hp => hp⟩
        | ok t =>
          rw [hstore f data t ho hr hp] at h
          simp only [tpl.Outcome.bind, tpl.Outcome.returned.injEq] at h
          subst h
          refine ⟨hfree, ?_⟩
          intro path t1 hpath
          have hne : path ≠ file := by
            rintro rfl
            rw [hc] at hpath
            cases hpath
          simp [tpl.Engine.store, tpl.Engine.lookup, hne]
          exact hpath

/-- C16: in a sequential run of `Engine.Render` calls that starts with the
mutex free, an entry of the cache is kept, unchanged, by every later call
that returns; a `Render` of a cached path returns what executing the cached
template gives, whatever the filesystem and also when the execution fails,
and leaves the engine unchanged; a `Render` of an uncached path whose source
opens, reads and parses returns the result of executing the new template
with the path now in the cache. -/
theorem tpl_compile_once {τ : Type} (lib : tpl.TemplateLib τ) :
    (∀ (calls : List tpl.Call) (e e1 : tpl.Engine τ), e.tplsL = ⟨false, 0⟩ →
      tpl.renderAll lib e calls = .returned e1 →
      ∀ path t, e.lookup path = some t → e1.lookup path = some t) ∧
    (∀ (e : tpl.Engine τ) (ctx : Context) (views : Views) (w : Option Writer) (vars : Vars)
      (file : String) (t : τ), e.tplsL = ⟨false, 0⟩ → e.lookup file = some t →
      tpl.Render lib e ctx views w vars file =
        .returned ⟨e, (lib.Execute t w vars).1, (lib.Execute t w vars).2⟩) ∧
    (∀ (e : tpl.Engine τ) (ctx : Context) (views : Views) (w : Option Writer) (vars : Vars)
      (file : String) (f : File) (data : String) (t : τ),
      e.tplsL = ⟨false, 0⟩ → e.lookup file = none →
      views.FS.Open file = .ok f → f.ReadAll = .ok data →
      lib.Parse file (tpl.missingKeyOption e.MissingKey) data = .ok t →
      ∃ r, tpl.Render lib e ctx views w vars file = .returned r ∧
        r.state.lookup file = some t ∧
        r.w = (lib.Execute t w vars).1 ∧ r.err = (lib.Execute t w vars).2) := by
  refine ⟨?_, ?_, ?_⟩
  · intro calls
    induction calls with
    | nil =>
      intro e e1 _ h path t hp
      simp only [tpl.renderAll, tpl.Outcome.returned.injEq] at h
      subst h
      exact hp
    | cons c rest ih =>
      intro e e1 hfree h path t hp
      simp only [tpl.renderAll] at h
      cases hr : tpl.Render lib e c.ctx c.views c.w c.vars c.file with
      | returned r =>
        rw [hr] at h
        obtain ⟨hfree1, hkeep⟩ := tpl_render_step lib e c.ctx c.views c.w c.vars c.file r hfree hr
        exact ih r.state e1 hfree1 h path t (hkeep path t hp)
      | fatal msg =>
        rw [hr] at h
        cases h
      | blocked =>
        rw [hr] at h
        cases h
  · intro e ctx views w vars file t hfree hcached
    exact tpl_render_cached lib e ctx views w vars file t hfree hcached
  · intro e ctx views w vars file f data t hfree hc ho hr hp
    obtain ⟨_, _, _, hstore⟩ := tpl_genTemplate_exits lib e views file hfree
    refine ⟨⟨e.store file t, (lib.Execute t w vars).1, (lib.Execute t w vars).2⟩, ?_, ?_, rfl, rfl⟩
    · have hg := hstore f data t ho hr hp
      obtain ⟨l, policy, tpls⟩ := e
      simp only at hfree
      subst hfree
      have hl : (tpl.Engine.mk ⟨false, 1⟩ policy tpls).lookup file = none := hc
      simp [tpl.Render, bind, tpl.Outcome.bind, tpl.RWMutex.RLock, tpl.RWMutex.RUnlock, pure,
        hl, hg]
    · simp [tpl.Engine.store, tpl.Engine.lookup]

theorem tpl_compile_once_witness :
    ∃ r, tpl.Render tpl.testLib tpl.newEngine 0 (tpl.memViews tpl.memFiles) (some "") []
        "test.tpl" = .returned r ∧
      r.state.lookup "test.tpl" = some "Hello" ∧
      r.w = (tpl.testLib.Execute "Hello" (some "") []).1 ∧
      r.err = (tpl.testLib.Execute "Hello" (some "") []).2 :=
  (tpl_compile_once tpl.testLib).2.2 tpl.newEngine 0 (tpl.memViews tpl.memFiles) (some "") []
    "test.tpl" ⟨.ok "Hello"⟩ "Hello" "Hello" rfl rfl rfl rfl rfl

/-- C18 (the code at the failing input): on an engine whose mutex is free,
`genTemplate` of a path that `Open` refuses releases the exclusive lock
twice, once explicitly and once by the deferred call, and the second
`Unlock` ends the program with a fatal error; on the other exits (read
failure, parse failure, success) it returns with the mutex free. -/
theorem tpl_genTemplate_open_failure_unlocks_twice :
    tpl.newEngine.tplsL = ⟨false, 0⟩ ∧
    ((tpl.memViews tpl.memFiles).FS.Open "missing.tpl").toOption.isNone = true ∧
    (tpl.genTemplate tpl.testLib tpl.newEngine (tpl.memViews tpl.memFiles)
      "missing.tpl").fatalMsg = some "sync: Unlock of unlocked RWMutex" ∧
    (tpl.RWMutex.Lock ⟨false, 0⟩).result? = some ⟨true, 0⟩ ∧
    (tpl.RWMutex.Unlock ⟨true, 0⟩).result? = some ⟨false, 0⟩ ∧
    (tpl.RWMutex.Unlock ⟨false, 0⟩).fatalMsg = some "sync: Unlock of unlocked RWMutex" ∧
    ((tpl.genTemplate tpl.testLib tpl.newEngine (tpl.memViews tpl.memFiles)
      "unreadable.tpl").result?.map fun a => a.1.tplsL) = some ⟨false, 0⟩ ∧
    ((tpl.genTemplate tpl.testLib tpl.newEngine (tpl.memViews tpl.memFiles)
      "broken.tpl").result?.map fun a => a.1.tplsL) = some ⟨false, 0⟩ ∧
    ((tpl.genTemplate tpl.testLib tpl.newEngine (tpl.memViews tpl.memFiles)
      "test.tpl").result?.map fun a => a.1.tplsL) = some ⟨false, 0⟩ := by
  decide

/-! ## The priority of the dimensions -/

/-- One level of a nested enumeration: when the enumeration splits at `t`
and `u` does not stand before `t`, the key of `t` is listed at or before the
key of `u`, and when the keys agree the enumeration of that key splits at `t`
with `u` not before it. -/
theorem flatMap_level {α β : Type} (key : β → α) (g : α → List β)
    (hkey : ∀ x, ∀ b ∈ g x, key b = x) (xs : List α) (pre post : List β) (t u : β)
    (hsplit : xs.flatMap g = pre ++ t :: post) (hu : u ∈ xs.flatMap g) (hpre : u ∉ pre) :
    AtOrBefore xs (key t) (key u) ∧
    (key t = key u → ∃ pre1 post1, g (key t) = pre1 ++ t :: post1 ∧ u ∈ g (key t) ∧ u ∉ pre1) := by
  induction xs generalizing pre with
  | nil => simp at hsplit
  | cons x rest ih =>
    rw [List.flatMap_cons] at hsplit hu
    have hin : ∀ (a : List β), pre = g x ++ a → rest.flatMap g = a ++ t :: post →
        AtOrBefore (x :: rest) (key t) (key u) ∧
        (key t = key u →
          ∃ pre1 post1, g (key t) = pre1 ++ t :: post1 ∧ u ∈ g (key t) ∧ u ∉ pre1) := by
      intro a hpa hrest
      have hux : u ∉ g x := fun h => hpre (by rw [hpa]; exact List.mem_append_left _ h)
      have hua : u ∉ a := fun h => hpre (by rw [hpa]; exact List.mem_append_right _ h)
      have hur : u ∈ rest.flatMap g := by
        rcases List.mem_append.mp hu with h | h
        · exact absurd h hux
        · exact h
      have hkx : key u ≠ x := by
        intro hk
        obtain ⟨y, _, huy⟩ := List.mem_flatMap.mp hur
        have := hkey y u huy
        rw [hk] at this
        subst this
        exact hux huy
      obtain ⟨⟨l1, l2, hl, hnot⟩, hsame⟩ := ih a hrest hur hua
      refine ⟨⟨x :: l1, l2, by rw [hl]; rfl, ?_⟩, hsame⟩
      intro hmem
      rcases List.mem_cons.mp hmem with h | h
      · exact hkx h
      · exact hnot h
    rcases List.append_eq_append_iff.mp hsplit with ⟨a, hpa, hrest⟩ | ⟨c, hgx, hc⟩
    · exact hin a hpa hrest
    · cases c with
      | nil =>
        simp only [List.nil_append] at hc
        simp only [List.append_nil] at hgx
        exact hin [] (by simp [hgx]) (by simp [hc])
      | cons t1 c1 =>
        simp only [List.cons_append, List.cons.injEq] at hc
        obtain ⟨rfl, _⟩ := hc
        have htx : key t = x := hkey x t (by rw [hgx]; simp)
        refine ⟨⟨[], rest, by rw [htx]; rfl, by simp⟩, ?_⟩
        intro hk
        rw [htx]
        refine ⟨pre, c1, hgx, ?_, hpre⟩
        rcases List.mem_append.mp hu with h | h
        · exact h
        · obtain ⟨y, _, huy⟩ := List.mem_flatMap.mp h
          have := hkey y u huy
          rw [← hk, htx] at this
          subst this
          exact huy

/-- C3 (as amended): for a request with a non-empty base name, when no
`fs.Glob` call on a pattern of the search space fails and some tuple of the
search space is matched by a registered file, `findTemplate` returns the
first registered file of a tuple `t` of the search space that beats every
tuple `u` matched by a registered file in the priority Formats, then
directory, then Variants, then SearchPaths: the format of `t` is listed at
or before the format of `u`; when the formats agree the directory of `t` is
listed at or before the directory of `u`; when the directories agree too the
variant of `t` is listed at or before the variant of `u`; and only when the
variants agree too is the search path of `t` listed at or before the search
path of `u`. -/
theorem priority_order (mime : MimeDB) (v : Views) (opts : Options)
    (hname : opts.Action ≠ "" ∨ opts.Partial ≠ "")
    (hok : ∀ t ∈ templateSpace mime v opts, GlobOk v (templatePattern (baseName opts) t))
    (hex : ∃ u ∈ templateSpace mime v opts, ∃ file0,
      Matches v (templatePattern (baseName opts) u) file0 ∧ registered v file0 = true) :
    ∃ t file, t ∈ templateSpace mime v opts ∧
      findTemplate mime v opts = .ok (file, t.format) ∧
      Hit v (templatePattern (baseName opts) t) file ∧
      ∀ u ∈ templateSpace mime v opts, ∀ file0,
        Matches v (templatePattern (baseName opts) u) file0 → registered v file0 = true →
        AtOrBefore (searchFormats mime opts) t.format u.format ∧
        (t.format = u.format →
          AtOrBefore ((searchDirs opts).filter fun dir => dir ≠ "") t.dir u.dir ∧
          (t.dir = u.dir →
            AtOrBefore (searchVariants opts) t.variant u.variant ∧
            (t.variant = u.variant → AtOrBefore (searchPaths v) t.spath u.spath))) := by
  obtain ⟨u0, hu0, file1, hm0, hr0⟩ := hex
  obtain ⟨pre, t, post, file, hsplit, hpre, hhit⟩ :=
    first_hit_split v (templatePattern (baseName opts)) (templateSpace mime v opts) hok
      ⟨u0, hu0, file1, hm0, hr0⟩
  have htmem : t ∈ templateSpace mime v opts := by rw [hsplit]; simp
  refine ⟨t, file, htmem,
    findTemplate_at_split mime v opts pre post t file (base_name_nonempty opts hname)
      hsplit hpre hhit, hhit, ?_⟩
  intro u hu file0 hmatch hreg
  have hupre : u ∉ pre := by
    intro h
    have := miss_not_matches v _ file0 (hpre u h) hmatch
    rw [hreg] at this
    cases this
  obtain ⟨hfmt, hnext1⟩ := flatMap_level Tuple.format (templateBlock v opts)
    (templateBlock_format v opts) (searchFormats mime opts) pre post t u hsplit hu hupre
  refine ⟨hfmt, ?_⟩
  intro hf
  obtain ⟨pre1, post1, hsplit1, hu1, hupre1⟩ := hnext1 hf
  obtain ⟨hdir, hnext2⟩ := flatMap_level Tuple.dir
    (fun dir => (searchVariants opts).flatMap fun variant =>
      (searchPaths v).map fun spath => (⟨t.format, dir, variant, spath⟩ : Tuple))
    (by
      intro x b hb
      simp only [List.mem_flatMap, List.mem_map] at hb
      obtain ⟨_, _, _, _, rfl⟩ := hb
      rfl)
    ((searchDirs opts).filter fun dir => dir ≠ "") pre1 post1 t u hsplit1 hu1 hupre1
  refine ⟨hdir, ?_⟩
  intro hd
  obtain ⟨pre2, post2, hsplit2, hu2, hupre2⟩ := hnext2 hd
  obtain ⟨hvar, hnext3⟩ := flatMap_level Tuple.variant
    (fun variant => (searchPaths v).map fun spath => (⟨t.format, t.dir, variant, spath⟩ : Tuple))
    (by
      intro x b hb
      simp only [List.mem_map] at hb
      obtain ⟨_, _, rfl⟩ := hb
      rfl)
    (searchVariants opts) pre2 post2 t u hsplit2 hu2 hupre2
  refine ⟨hvar, ?_⟩
  intro hvr
  obtain ⟨pre3, post3, hsplit3, hu3, hupre3⟩ := hnext3 hvr
  have hmap : ∀ xs : List String,
      (xs.map fun spath => (⟨t.format, t.dir, t.variant, spath⟩ : Tuple)) =
        xs.flatMap fun spath => [(⟨t.format, t.dir, t.variant, spath⟩ : Tuple)] := by
    intro xs
    induction xs with
    | nil => rfl
    | cons x rest ih => simp [List.flatMap_cons, ih]
  rw [hmap] at hsplit3 hu3
  exact (flatMap_level Tuple.spath
    (fun spath => [(⟨t.format, t.dir, t.variant, spath⟩ : Tuple)])
    (by
      intro x b hb
      simp only [List.mem_singleton] at hb
      subst hb
      rfl)
    (searchPaths v) pre3 post3 t u hsplit3 hu3 hupre3).1

theorem priority_order_witness :
    ∃ t file, t ∈ templateSpace testMime (testViews testTree ["", "plugin"])
        { request with Namespace := "admin", Controller := "authors", Action := "index" } ∧
      findTemplate testMime (testViews testTree ["", "plugin"])
        { request with Namespace := "admin", Controller := "authors", Action := "index" } =
        .ok (file, t.format) ∧
      Hit (testViews testTree ["", "plugin"]) (templatePattern "index" t) file ∧
      ∀ u ∈ templateSpace testMime (testViews testTree ["", "plugin"])
          { request with Namespace := "admin", Controller := "authors", Action := "index" },
        ∀ file0, Matches (testViews testTree ["", "plugin"]) (templatePattern "index" u) file0 →
        registered (testViews testTree ["", "plugin"]) file0 = true →
        AtOrBefore ["html", "json"] t.format u.format ∧
        (t.format = u.format →
          AtOrBefore ["admin/authors", "admin", "application"] t.dir u.dir ∧
          (t.dir = u.dir →
            AtOrBefore [""] t.variant u.variant ∧
            (t.variant = u.variant → AtOrBefore ["", "plugin"] t.spath u.spath))) :=
  priority_order testMime (testViews testTree ["", "plugin"])
    { request with Namespace := "admin", Controller := "authors", Action := "index" }
    (by decide) (by decide)
    ⟨⟨"html", "application", "", ""⟩, by decide, "application/index.html.tpl",
      by decide, by decide⟩

/-! ## What `path.Join` keeps of a file name -/

theorem splitChars_no_sep (sep : Char) (ys : List Char) (h : sep ∉ ys) :
    splitChars sep ys = [ys] := by
  induction ys with
  | nil => rfl
  | cons c cs ih =>
    have hc : c ≠ sep := fun hcs => h (by rw [hcs]; exact List.mem_cons_self _ _)
    have hcs : sep ∉ cs := fun hm => h (List.mem_cons_of_mem _ hm)
    simp [splitChars, hc, ih hcs]

theorem splitChars_append (sep : Char) (xs ys : List Char) (h : sep ∉ ys) :
    ∃ init l, splitChars sep xs = init ++ [l] ∧
      splitChars sep (xs ++ ys) = init ++ [l ++ ys] := by
  induction xs with
  | nil => exact ⟨[], [], rfl, by simpa using splitChars_no_sep sep ys h⟩
  | cons c cs ih =>
    obtain ⟨init, l, h1, h2⟩ := ih
    by_cases hc : c = sep
    · refine ⟨[] :: init, l, ?_, ?_⟩
      · simp [splitChars, hc, h1]
      · simp [splitChars, hc, h2]
    · cases init with
      | nil =>
        refine ⟨[], c :: l, ?_, ?_⟩
        · simp only [splitChars, hc, if_false, h1, List.nil_append]
        · show splitChars sep (c :: (cs ++ ys)) = [] ++ [(c :: l) ++ ys]
          simp only [splitChars, hc, if_false, h2, List.nil_append, List.cons_append]
      | cons w ws =>
        refine ⟨(c :: w) :: ws, l, ?_, ?_⟩
        · simp only [splitChars, hc, if_false, h1, List.cons_append]
        · show splitChars sep (c :: (cs ++ ys)) = (c :: w) :: ws ++ [l ++ ys]
          simp only [splitChars, hc, if_false, h2, List.cons_append]

theorem stringsJoin_concat (ks : List String) (c sep : String) :
    ∃ x : String, stringsJoin (ks ++ [c]) sep = x ++ c := by
  cases ks with
  | nil => exact ⟨"", by simp [stringsJoin]⟩
  | cons k rest =>
    refine ⟨rest.foldl (fun acc x => acc ++ sep ++ x) k ++ sep, ?_⟩
    simp [stringsJoin, List.foldl_append]

/-- `path.Clean` keeps the end of a path that holds no `/` and holds a
`+`. -/
theorem pathClean_suffix (path : String) (front tail : List Char)
    (hdata : path.data = front ++ tail) (hslash : '/' ∉ tail) (hplus : '+' ∈ tail) :
    ∃ pre : String, pathClean path = pre ++ String.mk tail := by
  have hne : path ≠ "" := by
    intro h
    rw [h] at hdata
    have : tail = [] := by
      have := congrArg List.length hdata
      simp at this
      exact List.length_eq_zero.mp (by omega)
    rw [this] at hplus
    simp at hplus
  obtain ⟨init, l, _, hsplit⟩ := splitChars_append '/' front tail hslash
  have hcomp : ∀ rooted (st : List String × Nat),
      cleanStep rooted st (String.mk (l ++ tail)) = (String.mk (l ++ tail) :: st.1, st.2) := by
    intro rooted st
    have hmem : '+' ∈ (String.mk (l ++ tail)).data := List.mem_append_right _ hplus
    have h1 : String.mk (l ++ tail) ≠ "" := by
      intro h
      rw [h] at hmem
      simp at hmem
    have h2 : String.mk (l ++ tail) ≠ "." := by
      intro h
      rw [h] at hmem
      revert hmem
      decide
    have h3 : String.mk (l ++ tail) ≠ ".." := by
      intro h
      rw [h] at hmem
      revert hmem
      decide
    simp [cleanStep, h1, h2, h3]
  have hkept : ∀ rooted, ∃ ks : List String,
      ((stringsSplit path '/').foldl (cleanStep rooted) ([], 0)).1.reverse =
        ks ++ [String.mk (l ++ tail)] := by
    intro rooted
    refine ⟨((init.map String.mk).foldl (cleanStep rooted) ([], 0)).1.reverse, ?_⟩
    simp [stringsSplit, hdata, hsplit, List.foldl_append, hcomp]
  have hmk : String.mk (l ++ tail) = String.mk l ++ String.mk tail := rfl
  unfold pathClean
  rw [if_neg hne]
  simp only []
  by_cases hr : path.data.head? = some '/'
  · obtain ⟨ks, hks⟩ := hkept (decide (path.data.head? = some '/'))
    obtain ⟨x, hx⟩ := stringsJoin_concat ks (String.mk (l ++ tail)) "/"
    refine ⟨"/" ++ x ++ String.mk l, ?_⟩
    simp only [hr, decide_True, if_true] at hks ⊢
    rw [hks, hx, hmk]
    simp [String.append_assoc]
  · obtain ⟨ks, hks⟩ := hkept (decide (path.data.head? = some '/'))
    obtain ⟨x, hx⟩ := stringsJoin_concat ks (String.mk (l ++ tail)) "/"
    refine ⟨x ++ String.mk l, ?_⟩
    simp only [hr, decide_False, if_false] at hks ⊢
    rw [hks, hx, hmk]
    simp [String.append_assoc]

/-- The pattern `path.Join(spath, dir, stem + "+" + variant + ".*")` ends in
`+variant.*` when the variant holds no `/`. -/
theorem pathJoin_variant_suffix (spath dir stem variant : String)
    (hslash : '/' ∉ variant.data) :
    ∃ pre : String, pathJoin [spath, dir, stem ++ "+" ++ variant ++ ".*"] =
      pre ++ ("+" ++ variant ++ ".*") := by
  have hlast : stem ++ "+" ++ variant ++ ".*" ≠ "" := by
    intro h
    have := congrArg String.data h
    simp [String.data_append] at this
  obtain ⟨ks, hks⟩ : ∃ ks : List String,
      [spath, dir, stem ++ "+" ++ variant ++ ".*"].filter (fun e => e ≠ "") =
        ks ++ [stem ++ "+" ++ variant ++ ".*"] := by
    refine ⟨[spath, dir].filter (fun e => e ≠ ""), ?_⟩
    have : [spath, dir, stem ++ "+" ++ variant ++ ".*"] =
        [spath, dir] ++ [stem ++ "+" ++ variant ++ ".*"] := rfl
    rw [this, List.filter_append]
    simp [hlast]
  obtain ⟨x, hx⟩ := stringsJoin_concat ks (stem ++ "+" ++ variant ++ ".*") "/"
  have hjoin : pathJoin [spath, dir, stem ++ "+" ++ variant ++ ".*"] =
      pathClean (x ++ (stem ++ "+" ++ variant ++ ".*")) := by
    unfold pathJoin
    rw [hks, ← hx]
    cases ks <;> rfl
  rw [hjoin]
  have htail : String.mk ('+' :: (variant.data ++ ['.', '*'])) = "+" ++ variant ++ ".*" := by
    apply String.ext
    simp [String.data_append]
  rw [← htail]
  apply pathClean_suffix _ (x.data ++ stem.data) ('+' :: (variant.data ++ ['.', '*']))
  · simp [String.data_append]
  · intro h
    rcases List.mem_cons.mp h with h | h
    · revert h
      decide
    · rcases List.mem_append.mp h with h | h
      · exact hslash h
      · revert h
        decide
  · exact List.mem_cons_self _ _

/-- C17 (as amended): with an empty `Variants` list `findTemplate` resolves
exactly as with `Variants = [""]`; and when `Variants` is non-empty and does
not list the empty string, every file `findTemplate` returns is the first
registered file `fs.Glob` enumerates for the pattern
`path.Join(spath, dir, name(.format)+variant.*)` of one of the listed
variants, and that pattern ends in `+variant.*` when the variant holds no
`/`. -/
theorem variant_preference (mime : MimeDB) (v : Views) (opts : Options) :
    (opts.Variants = [] →
      findTemplate mime v opts = findTemplate mime v { opts with Variants := [""] }) ∧
    (opts.Variants ≠ [] → "" ∉ opts.Variants → ∀ file fmt,
      findTemplate mime v opts = .ok (file, fmt) →
      ∃ dir variant spath, variant ∈ opts.Variants ∧ variant ≠ "" ∧
        Hit v (pathJoin [spath, dir,
          (if fmt ≠ "" then baseName opts ++ "." ++ fmt else baseName opts) ++
            "+" ++ variant ++ ".*"]) file ∧
        ('/' ∉ variant.data → ∃ pre : String,
          pathJoin [spath, dir,
            (if fmt ≠ "" then baseName opts ++ "." ++ fmt else baseName opts) ++
              "+" ++ variant ++ ".*"] = pre ++ ("+" ++ variant ++ ".*"))) := by
  constructor
  · intro hv
    unfold findTemplate
    simp [hv]
  · intro hne hnot file fmt hres
    obtain ⟨dir, variant, s1, q, s2, hmem, _, hhit, _⟩ :=
      findTemplate_ok_origin mime v opts file fmt hres
    have hvar : variant ∈ opts.Variants := by
      simp only [templateSpace, templateBlock, List.mem_flatMap, List.mem_map] at hmem
      obtain ⟨_, _, _, _, vr, hvr, _, _, heq⟩ := hmem
      simp only [Tuple.mk.injEq] at heq
      obtain ⟨_, _, rfl, _⟩ := heq
      simpa [searchVariants, hne] using hvr
    have hvne : variant ≠ "" := fun h => hnot (h ▸ hvar)
    refine ⟨dir, variant, q, hvar, hvne, ?_, ?_⟩
    · simpa [templatePattern, templateFileName, hvne] using hhit
    · intro hslash
      exact pathJoin_variant_suffix q dir _ variant hslash

theorem variant_preference_witness :
    ∃ dir variant spath, variant ∈ ["mobile"] ∧ variant ≠ "" ∧
      Hit (testViews testTree ["", "plugin"])
        (pathJoin [spath, dir, "index.html+" ++ variant ++ ".*"])
        "posts/index.html+mobile.tpl" ∧
      ('/' ∉ variant.data → ∃ pre : String,
        pathJoin [spath, dir, "index.html+" ++ variant ++ ".*"] =
          pre ++ ("+" ++ variant ++ ".*")) :=
  (variant_preference testMime (testViews testTree ["", "plugin"])
    { request with Controller := "posts", Action := "index", Variants := ["mobile"] }).2
    (by decide) (by decide) "posts/index.html+mobile.tpl" "html" (by decide)

/-- C17 (as stated) fails: `Variants` is non-empty and does not list the
empty string, yet `findTemplate` returns the view without a variant suffix:
`path.Join` cleans the pattern built with the variant `/../index.html`,
`posts/index.html+/../index.html.*`, to `posts/index.html.*`. -/
theorem variant_preference_counterexample :
    ("" : String) ∉ ["/../index.html"] ∧
    templatePattern "index" ⟨"html", "posts", "/../index.html", ""⟩ = "posts/index.html.*" ∧
    findTemplate testMime (testViews testTree [])
        { request with Controller := "posts", Action := "index",
                       Variants := ["/../index.html"] } =
      .ok ("posts/index.html.tpl", "html") := by
  decide

end lazyview
